import Mathlib

/-!
Verification of the terminal scrollback text buffer
(src/terminal/src/buffer/out/textBuffer.cpp).

The development embeds the buffer operations named by the claims as
executable Lean functions translated from the C++ source.  Machine
integers (til::CoordType = int32) are modelled as Int; the C++ `%`
operator on Int operands is truncated modulo, modelled by Int.tmod.
External collaborators (the ROW storage primitive, the renderer, the
glyph-width oracle and the ICU search engine) are not part of src/ and
are modelled from the spec's collaborator contracts, as noted at each
definition.
-/

/-- Truncated modulo, the semantics of the C++ `%` operator on int operands. -/
def cppMod (a b : Int) : Int := a.tmod b

/-- Mirrors TextBuffer::_getRow (textBuffer.cpp lines 187-202): the physical
slot in the reserved region that stores logical row `y`.  The source computes
`offset = (_firstRow + y) % _height`, adds `_height` when the truncated modulo
came out negative, and finally adds 1 because slot 0 is the scratchpad row. -/
def getRowSlot (firstRow height y : Int) : Int :=
  let offset := cppMod (firstRow + y) height
  let offset := if offset < 0 then offset + height else offset
  offset + 1

/-- Mutation-counter state of a buffer as far as row lookup is concerned
(fields `_firstRow`, `_height`, `_lastMutationId` of TextBuffer). -/
structure RowIndexState where
  firstRow : Int
  height : Int
  lastMutationId : Nat
deriving Repr, DecidableEq

/-- Mirrors TextBuffer::GetRowByOffset (lines 219-222): a const lookup, it
returns the slot of the row and leaves the state unchanged. -/
def RowIndexState.GetRowByOffset (s : RowIndexState) (y : Int) : Int × RowIndexState :=
  (getRowSlot s.firstRow s.height y, s)

/-- Mirrors TextBuffer::GetMutableRowByOffset (lines 226-230): increments
`_lastMutationId` and then performs the same lookup as GetRowByOffset. -/
def RowIndexState.GetMutableRowByOffset (s : RowIndexState) (y : Int) : Int × RowIndexState :=
  let s := { s with lastMutationId := s.lastMutationId + 1 }
  (getRowSlot s.firstRow s.height y, s)

/-- The truncated modulo of the source, followed by the source's negative
fix-up, agrees with the Euclidean modulo (whose result lies in [0, h)). -/
theorem tmodFixup_eq_emod (a h : Int) (hh : 0 < h) :
    (if a.tmod h < 0 then a.tmod h + h else a.tmod h) = a % h := by
  have hd : h * (a.tdiv h) + a.tmod h = a := Int.tdiv_add_tmod a h
  have hub : a.tmod h < h := Int.tmod_lt_of_pos a hh
  have hlb : -h < a.tmod h := by
    rcases le_or_lt 0 a with ha | ha
    · have := Int.tmod_nonneg h ha
      omega
    · have hneg : (-a).tmod h = -(a.tmod h) := by
        rw [Int.tmod_def, Int.tmod_def, Int.neg_tdiv]
        ring
      have h2 : (-a).tmod h < h := Int.tmod_lt_of_pos (-a) hh
      have h3 : 0 ≤ (-a).tmod h := Int.tmod_nonneg h (by omega)
      omega
  have key : ∀ r : Int, 0 ≤ r → r < h → h ∣ a - r → a % h = r := by
    intro r hr0 hrh hdvd
    obtain ⟨k, hk⟩ := hdvd
    have hra : a = r + h * k := by omega
    rw [hra]
    show (r + h * k) % h = r
    rw [Int.add_mul_emod_self_left, Int.emod_eq_of_lt hr0 hrh]
  by_cases hc : a.tmod h < 0
  · rw [if_pos hc, key (a.tmod h + h) (by omega) (by omega) ⟨a.tdiv h - 1, by ring_nf; omega⟩]
  · rw [if_neg hc, key (a.tmod h) (by omega) hub ⟨a.tdiv h, by omega⟩]

/-- C1: for every logical row index y, including negative y, GetRowByOffset
and GetMutableRowByOffset address the physical slot
((firstRow + y) mod height) + 1, where the modulo result is brought into
[0, height) (the source adds height to a negative truncated-modulo result);
the slot is therefore in [1, height], slot 0 being the scratch row.
GetMutableRowByOffset additionally increments the mutation counter while
GetRowByOffset leaves the state unchanged. -/
theorem textBuffer_c1_rowAddressing (s : RowIndexState) (y : Int)
    (hfr0 : 0 ≤ s.firstRow) (hfrh : s.firstRow < s.height) :
    (s.GetRowByOffset y).1 = (s.firstRow + y) % s.height + 1 ∧
    (s.GetRowByOffset y).2 = s ∧
    (s.GetMutableRowByOffset y).1 = (s.firstRow + y) % s.height + 1 ∧
    (s.GetMutableRowByOffset y).2 =
      { s with lastMutationId := s.lastMutationId + 1 } ∧
    1 ≤ (s.GetRowByOffset y).1 ∧ (s.GetRowByOffset y).1 ≤ s.height := by
  have hh : 0 < s.height := lt_of_le_of_lt hfr0 hfrh
  have hslot : getRowSlot s.firstRow s.height y = (s.firstRow + y) % s.height + 1 := by
    have hfix := tmodFixup_eq_emod (s.firstRow + y) s.height hh
    simp only [getRowSlot, cppMod]
    rw [hfix]
  have hlow : 0 ≤ (s.firstRow + y) % s.height := Int.emod_nonneg _ (ne_of_gt hh)
  have hhigh : (s.firstRow + y) % s.height < s.height := Int.emod_lt_of_pos _ hh
  refine ⟨hslot, rfl, hslot, rfl, ?_, ?_⟩
  · rw [RowIndexState.GetRowByOffset, hslot]; omega
  · rw [RowIndexState.GetRowByOffset, hslot]; omega

/-- C1 witness: a concrete buffer (firstRow 2, height 3) and the negative
index -4; the addressed slot is ((2 - 4) mod 3) + 1 = 2. -/
theorem textBuffer_c1_rowAddressing_witness :
    let s : RowIndexState := { firstRow := 2, height := 3, lastMutationId := 7 }
    (0 ≤ s.firstRow ∧ s.firstRow < s.height) ∧
    ((s.GetRowByOffset (-4)).1 = (s.firstRow + (-4)) % s.height + 1 ∧
     (s.GetRowByOffset (-4)).2 = s ∧
     (s.GetMutableRowByOffset (-4)).1 = (s.firstRow + (-4)) % s.height + 1 ∧
     (s.GetMutableRowByOffset (-4)).2 =
       { s with lastMutationId := s.lastMutationId + 1 } ∧
     1 ≤ (s.GetRowByOffset (-4)).1 ∧ (s.GetRowByOffset (-4)).1 ≤ s.height) :=
  ⟨⟨by decide, by decide⟩,
    textBuffer_c1_rowAddressing _ (-4) (by decide) (by decide)⟩

/-!
FitTextIntoColumns (textBuffer.cpp lines 429-499).  Text is a list of
UTF-16 code units, each represented as a Nat below 2^16.  The glyph-width oracle IsGlyphFullWidth lives in
GlyphWidth.hpp, an external collaborator, and is therefore a parameter.
-/

/-- The Unicode replacement character used for malformed surrogate pairs. -/
def UNICODE_REPLACEMENT : Nat := 0xFFFD

/-- Modelled from the spec: surrogate code-unit classification used by the
slow path (til::is_surrogate). -/
def isSurrogate (c : Nat) : Bool := decide (0xD800 ≤ c ∧ c < 0xE000)

/-- Modelled from the spec: leading (high) surrogate classification
(til::is_leading_surrogate). -/
def isLeadingSurrogate (c : Nat) : Bool := decide (0xD800 ≤ c ∧ c < 0xDC00)

/-- Modelled from the spec: trailing (low) surrogate classification
(til::is_trailing_surrogate). -/
def isTrailingSurrogate (c : Nat) : Bool := decide (0xDC00 ≤ c ∧ c < 0xE000)

/-- Mirrors the Unicode slow path of TextBuffer::FitTextIntoColumns
(lines 452-498).  Arguments: the remaining text (the iterator `it` up to
`end`), the characters consumed so far (`it - beg`) and the columns used so
far (`col`).  Each round consumes one code unit, or two for a valid
surrogate pair; a lone surrogate is measured as the replacement character.
When `col` would exceed the limit the function returns `columnLimit` as the
column count, leaving the current glyph unconsumed. -/
def fitSlow (isGlyphFullWidth : List Nat → Bool) (columnLimit : Nat) :
    List Nat → Nat → Nat → Nat × Nat
  | [], consumed, col => (consumed, col)
  | wch :: rest, consumed, col =>
    if isSurrogate wch && isLeadingSurrogate wch &&
        (match rest with | r2 :: _ => isTrailingSurrogate r2 | [] => false) then
      match rest with
      | r2 :: rest2 =>
        let col := col + 1 + (if isGlyphFullWidth [wch, r2] then 1 else 0)
        if col > columnLimit then (consumed, columnLimit)
        else if rest2.isEmpty then (consumed + 2, col)
        else fitSlow isGlyphFullWidth columnLimit rest2 (consumed + 2) col
      | [] => (consumed, col)
    else
      let glyph := if isSurrogate wch then [UNICODE_REPLACEMENT] else [wch]
      let col := col + 1 +
        (if 0x80 ≤ wch then (if isGlyphFullWidth glyph then 1 else 0) else 0)
      if col > columnLimit then (consumed, columnLimit)
      else if rest.isEmpty then (consumed + 1, col)
      else fitSlow isGlyphFullWidth columnLimit rest (consumed + 1) col

/-- Mirrors the ASCII fast path (lines 436-441): the number of leading code
units below 0x80, scanning at most `n` units. -/
def asciiRun : Nat → List Nat → Nat
  | 0, _ => 0
  | _ + 1, [] => 0
  | n + 1, c :: rest => if c < 0x80 then asciiRun n rest + 1 else 0

/-- Mirrors TextBuffer::FitTextIntoColumns (lines 429-499).  Returns the
pair (number of input characters consumed, columns used); the second
component is the out-parameter `columns` of the source.  A negative
`columnLimit` is clamped to 0 by the source's first line. -/
def FitTextIntoColumns (isGlyphFullWidth : List Nat → Bool)
    (chars : List Nat) (columnLimit : Int) : Nat × Nat :=
  let limit : Nat := (max 0 columnLimit).toNat
  let dist := asciiRun (min chars.length limit) chars
  if dist = min chars.length limit then
    (dist, dist)
  else
    fitSlow isGlyphFullWidth limit (chars.drop dist) dist dist

/-- Modelled from the spec: the columns a piece of text actually occupies.
One column per ASCII character, a full-width glyph two, a lone surrogate
measured as the replacement character (this is the reference measure the
claim describes; FitTextIntoColumns is compared against it). -/
def measureColumns (isGlyphFullWidth : List Nat → Bool) : List Nat → Nat
  | [] => 0
  | c :: rest =>
    if c < 0x80 then 1 + measureColumns isGlyphFullWidth rest
    else if isSurrogate c then
      match rest with
      | r2 :: rest2 =>
        if isLeadingSurrogate c && isTrailingSurrogate r2 then
          (1 + (if isGlyphFullWidth [c, r2] then 1 else 0)) +
            measureColumns isGlyphFullWidth rest2
        else
          (1 + (if isGlyphFullWidth [UNICODE_REPLACEMENT] then 1 else 0)) +
            measureColumns isGlyphFullWidth (r2 :: rest2)
      | [] => 1 + (if isGlyphFullWidth [UNICODE_REPLACEMENT] then 1 else 0)
    else
      (1 + (if isGlyphFullWidth [c] then 1 else 0)) +
        measureColumns isGlyphFullWidth rest
termination_by l => l.length
decreasing_by all_goals (simp_wf <;> simp_all <;> omega)

/-- C10: a column budget of zero or below (the source clamps a negative
budget to 0) fits zero characters and reports zero consumed columns. -/
theorem textBuffer_c10_nonpositiveBudget (isGlyphFullWidth : List Nat → Bool)
    (chars : List Nat) (columnLimit : Int) (h : columnLimit ≤ 0) :
    FitTextIntoColumns isGlyphFullWidth chars columnLimit = (0, 0) := by
  have hmax : max 0 columnLimit = 0 := by omega
  simp [FitTextIntoColumns, hmax, asciiRun]

/-- C10 witness: a non-empty text with the negative budget -3 fits zero
characters and zero columns. -/
theorem textBuffer_c10_nonpositiveBudget_witness :
    (-3 : Int) ≤ 0 ∧
    FitTextIntoColumns (fun _ => true) [97, 0x4E2D, 98] (-3) = (0, 0) :=
  ⟨by decide, textBuffer_c10_nonpositiveBudget (fun _ => true) [97, 0x4E2D, 98] (-3) (by decide)⟩

/-- Unfolding lemma: an ASCII code unit occupies one column. -/
theorem measureColumns_ascii_cons (f : List Nat → Bool) (c : Nat)
    (rest : List Nat) (hc : c < 0x80) :
    measureColumns f (c :: rest) = 1 + measureColumns f rest := by
  rw [measureColumns.eq_def]
  simp [hc]

/-- Every non-empty piece of text occupies at least one column. -/
theorem measureColumns_pos (f : List Nat → Bool) (c : Nat) (rest : List Nat) :
    1 ≤ measureColumns f (c :: rest) := by
  rw [measureColumns.eq_def]
  simp only []
  repeat' split
  all_goals omega

/-- The ASCII fast path scans at most `n` code units and at most the text. -/
theorem asciiRun_le (n : Nat) (l : List Nat) : asciiRun n l ≤ min n l.length := by
  induction n generalizing l with
  | zero => simp [asciiRun]
  | succ n ih =>
    match l with
    | [] => simp [asciiRun]
    | c :: rest =>
      rw [asciiRun]
      split
      · have := ih rest
        simp only [List.length_cons]
        omega
      · omega

/-- Splitting the text after the ASCII prefix splits its column measure:
each of the scanned ASCII code units occupies exactly one column. -/
theorem measureColumns_asciiRun_split (f : List Nat → Bool) (n : Nat) (l : List Nat) :
    measureColumns f l = asciiRun n l + measureColumns f (l.drop (asciiRun n l)) := by
  induction n generalizing l with
  | zero => simp [asciiRun]
  | succ n ih =>
    match l with
    | [] => simp [asciiRun]
    | c :: rest =>
      rw [asciiRun]
      split
      · rename_i hc
        rw [measureColumns_ascii_cons f c rest hc]
        have hrec := ih rest
        rw [List.drop_succ_cons]
        omega
      · simp

theorem measureColumns_nil (f : List Nat → Bool) : measureColumns f [] = 0 := by
  rw [measureColumns.eq_def]

theorem measureColumns_pair (f : List Nat → Bool) (wch r2 : Nat) (rest2 : List Nat)
    (h1 : isSurrogate wch = true) (h2 : isLeadingSurrogate wch = true)
    (h3 : isTrailingSurrogate r2 = true) :
    measureColumns f (wch :: r2 :: rest2) =
      (1 + (if f [wch, r2] then 1 else 0)) + measureColumns f rest2 := by
  have hw : ¬ wch < 0x80 := by
    simp only [isSurrogate, decide_eq_true_eq] at h1
    omega
  rw [measureColumns.eq_def]
  simp only []
  rw [if_neg hw, if_pos h1]
  simp only [h2, h3, Bool.and_self, if_pos]

theorem measureColumns_single (f : List Nat → Bool) (wch : Nat) (rest : List Nat)
    (hg : ¬ (isSurrogate wch && isLeadingSurrogate wch &&
      (match rest with | r2 :: _ => isTrailingSurrogate r2 | [] => false)) = true) :
    measureColumns f (wch :: rest) =
      (1 + (if 0x80 ≤ wch then
        (if f (if isSurrogate wch then [UNICODE_REPLACEMENT] else [wch]) then 1 else 0)
        else 0)) + measureColumns f rest := by
  rw [measureColumns.eq_def]
  simp only []
  by_cases hw : wch < 0x80
  · rw [if_pos hw, if_neg (show ¬ (0x80 : Nat) ≤ wch by omega)]
  · rw [if_neg hw, if_pos (show (0x80 : Nat) ≤ wch by omega)]
    by_cases hs : isSurrogate wch = true
    · rw [if_pos hs, if_pos hs]
      cases rest with
      | nil =>
        simp [measureColumns_nil]
      | cons r2 rest2 =>
        have hlt : ¬ (isLeadingSurrogate wch && isTrailingSurrogate r2) = true := by
          intro hc
          apply hg
          simp only [hs, Bool.true_and]
          exact hc
        simp only []
        rw [if_neg hlt]
    · rw [if_neg hs, if_neg (show ¬ isSurrogate wch = true from hs)]

theorem fitSlow_spec (f : List Nat → Bool) (lim : Nat) :
    ∀ (rest : List Nat) (consumed col : Nat), col ≤ lim →
      (col + measureColumns f rest ≤ lim →
        fitSlow f lim rest consumed col =
          (consumed + rest.length, col + measureColumns f rest)) ∧
      (rest ≠ [] → lim < col + measureColumns f rest →
        (fitSlow f lim rest consumed col).2 = lim ∧
        (fitSlow f lim rest consumed col).1 < consumed + rest.length) := by
  intro rest consumed col
  induction rest, consumed, col using fitSlow.induct f lim with
  | case1 consumed col =>
    intro hcol
    constructor
    · intro _
      simp [fitSlow, measureColumns_nil]
    · intro hne
      exact absurd rfl hne
  | case2 wch consumed col r2 tail col1 hover hguard =>
    intro hcol
    obtain ⟨⟨h1, h2⟩, h3⟩ :
        (isSurrogate wch = true ∧ isLeadingSurrogate wch = true) ∧
          isTrailingSurrogate r2 = true := by
      simp only [Bool.and_eq_true] at hguard
      exact hguard
    have hm := measureColumns_pair f wch r2 tail h1 h2 h3
    have hfit : fitSlow f lim (wch :: r2 :: tail) consumed col = (consumed, lim) := by
      simp only [fitSlow]
      rw [if_pos hguard, if_pos hover]
    have hc1 : col1 = col + 1 + (if f [wch, r2] then 1 else 0) := rfl
    clear_value col1
    constructor
    · intro hle
      exfalso
      have hp := measureColumns_pos f wch (r2 :: tail)
      omega
    · intro _ _
      rw [hfit]
      refine ⟨rfl, ?_⟩
      simp only [List.length_cons]
      omega
  | case3 wch consumed col r2 tail col1 hnover hemp hguard =>
    intro hcol
    obtain ⟨⟨h1, h2⟩, h3⟩ :
        (isSurrogate wch = true ∧ isLeadingSurrogate wch = true) ∧
          isTrailingSurrogate r2 = true := by
      simp only [Bool.and_eq_true] at hguard
      exact hguard
    have htail : tail = [] := by
      cases tail with
      | nil => rfl
      | cons a b => simp at hemp
    subst htail
    have hm := measureColumns_pair f wch r2 [] h1 h2 h3
    rw [measureColumns_nil] at hm
    have hfit : fitSlow f lim [wch, r2] consumed col = (consumed + 2, col1) := by
      simp only [fitSlow]
      rw [if_pos hguard, if_neg hnover]
      rfl
    have hc1 : col1 = col + 1 + (if f [wch, r2] then 1 else 0) := rfl
    clear_value col1
    constructor
    · intro hle
      rw [hfit, hm]
      simp only [List.length_cons, List.length_nil, Prod.mk.injEq, true_and, and_true]
      omega
    · intro _ hgt
      exfalso
      omega
  | case4 wch consumed col r2 tail col1 hnover hnemp hguard ih =>
    intro hcol
    obtain ⟨⟨h1, h2⟩, h3⟩ :
        (isSurrogate wch = true ∧ isLeadingSurrogate wch = true) ∧
          isTrailingSurrogate r2 = true := by
      simp only [Bool.and_eq_true] at hguard
      exact hguard
    have htail : tail ≠ [] := by
      intro he
      rw [he] at hnemp
      exact hnemp rfl
    have hm := measureColumns_pair f wch r2 tail h1 h2 h3
    have hfit : fitSlow f lim (wch :: r2 :: tail) consumed col =
        fitSlow f lim tail (consumed + 2) col1 := by
      simp only [fitSlow]
      rw [if_pos hguard, if_neg hnover, if_neg hnemp]
    have hc1 : col1 = col + 1 + (if f [wch, r2] then 1 else 0) := rfl
    clear_value col1
    have hcol1 : col1 ≤ lim := by omega
    have hih := ih hcol1
    constructor
    · intro hle
      rw [hfit, hih.1 (by omega)]
      simp only [List.length_cons, Prod.mk.injEq, true_and, and_true]
      omega
    · intro _ hgt
      rw [hfit]
      have := hih.2 htail (by omega)
      simp only [List.length_cons]
      omega
  | case5 wch consumed col hguard =>
    exfalso
    simp at hguard
  | case6 wch rest consumed col hguard glyph col1 hover =>
    intro hcol
    have hm := measureColumns_single f wch rest hguard
    have hfit : fitSlow f lim (wch :: rest) consumed col = (consumed, lim) := by
      rw [fitSlow.eq_def]
      simp only []
      rw [if_neg hguard, if_pos hover]
    have hc1 : col1 = col + 1 +
        (if 0x80 ≤ wch then
          (if f (if isSurrogate wch then [UNICODE_REPLACEMENT] else [wch]) then 1 else 0)
          else 0) := rfl
    clear_value col1 glyph
    constructor
    · intro hle
      exfalso
      omega
    · intro _ _
      rw [hfit]
      refine ⟨rfl, ?_⟩
      simp only [List.length_cons]
      omega
  | case7 wch rest consumed col hguard glyph col1 hnover hemp =>
    intro hcol
    have hrest : rest = [] := by
      cases rest with
      | nil => rfl
      | cons a b => simp at hemp
    subst hrest
    have hm := measureColumns_single f wch [] hguard
    rw [measureColumns_nil] at hm
    have hfit : fitSlow f lim [wch] consumed col = (consumed + 1, col1) := by
      rw [fitSlow.eq_def]
      simp only []
      rw [if_neg hguard, if_neg hnover]
      rfl
    have hc1 : col1 = col + 1 +
        (if 0x80 ≤ wch then
          (if f (if isSurrogate wch then [UNICODE_REPLACEMENT] else [wch]) then 1 else 0)
          else 0) := rfl
    clear_value col1 glyph
    constructor
    · intro hle
      rw [hfit]
      simp only [List.length_cons, List.length_nil, Prod.mk.injEq, true_and, and_true]
      omega
    · intro _ hgt
      exfalso
      omega
  | case8 wch rest consumed col hguard glyph col1 hnover hnemp ih =>
    intro hcol
    have hrest : rest ≠ [] := by
      intro he
      rw [he] at hnemp
      exact hnemp rfl
    have hm := measureColumns_single f wch rest hguard
    have hfit : fitSlow f lim (wch :: rest) consumed col =
        fitSlow f lim rest (consumed + 1) col1 := by
      rw [fitSlow.eq_def]
      simp only []
      rw [if_neg hguard, if_neg hnover, if_neg hnemp]
    have hc1 : col1 = col + 1 +
        (if 0x80 ≤ wch then
          (if f (if isSurrogate wch then [UNICODE_REPLACEMENT] else [wch]) then 1 else 0)
          else 0) := rfl
    clear_value col1 glyph
    have hcol1 : col1 ≤ lim := by omega
    have hih := ih hcol1
    constructor
    · intro hle
      rw [hfit, hih.1 (by omega)]
      simp only [List.length_cons, Prod.mk.injEq, true_and, and_true]
      omega
    · intro _ hgt
      rw [hfit]
      have := hih.2 hrest (by omega)
      simp only [List.length_cons]
      omega

/-- C3: for every text and every non-negative column budget,
FitTextIntoColumns reports as consumed columns exactly the minimum of the
text's true column measure (1 per ASCII char, 2 per full-width glyph, lone
surrogates measured as the replacement character) and the budget; when the
whole text fits it returns the text length, and when the budget runs out
(including mid-glyph, where a padding column is wasted) the reported column
count equals the full budget and strictly fewer characters than the text
holds are consumed.  In particular FitTextIntoColumns "ab" 1 consumes one
character and one column. -/
theorem textBuffer_c3_fitTextIntoColumns (f : List Nat → Bool) (chars : List Nat)
    (columnLimit : Int) (hpos : 0 ≤ columnLimit) :
    ((FitTextIntoColumns f chars columnLimit).2 =
       min (measureColumns f chars) columnLimit.toNat) ∧
    (measureColumns f chars ≤ columnLimit.toNat →
       (FitTextIntoColumns f chars columnLimit).1 = chars.length) ∧
    (columnLimit.toNat < measureColumns f chars →
       (FitTextIntoColumns f chars columnLimit).1 < chars.length) ∧
    FitTextIntoColumns f [97, 98] 1 = (1, 1) := by
  have hconcrete : FitTextIntoColumns f [97, 98] 1 = (1, 1) := rfl
  have hmax : (max 0 columnLimit).toNat = columnLimit.toNat := by omega
  set lim := columnLimit.toNat with hlim
  have hsplit := measureColumns_asciiRun_split f (min chars.length lim) chars
  have hd_le := asciiRun_le (min chars.length lim) chars
  set d := asciiRun (min chars.length lim) chars with hd
  have hlen_drop : (chars.drop d).length = chars.length - d := List.length_drop d chars
  have hcalc : FitTextIntoColumns f chars columnLimit =
      (if d = min chars.length lim then (d, d)
       else fitSlow f lim (chars.drop d) d d) := by
    simp only [FitTextIntoColumns, hmax, ← hlim, ← hd]
  by_cases hfull : d = min chars.length lim
  · rw [if_pos hfull] at hcalc
    by_cases hlen : chars.length ≤ lim
    · have hdl : d = chars.length := by omega
      rw [hdl, List.drop_length, measureColumns_nil] at hsplit
      refine ⟨?_, ?_, ?_, hconcrete⟩
      · rw [hcalc]
        omega
      · intro _
        rw [hcalc]
        omega
      · intro hgt
        omega
    · have hdl : d = lim := by omega
      have hne : chars.drop d ≠ [] := by
        intro he
        have := congrArg List.length he
        rw [hlen_drop] at this
        simp at this
        omega
      have hmp : 1 ≤ measureColumns f (chars.drop d) := by
        cases hh : chars.drop d with
        | nil => exact absurd hh hne
        | cons a b =>
          rw [hh] at hsplit
          have := measureColumns_pos f a b
          omega
      refine ⟨?_, ?_, ?_, hconcrete⟩
      · rw [hcalc]
        omega
      · intro hle
        omega
      · intro _
        rw [hcalc]
        omega
  · rw [if_neg hfull] at hcalc
    have hdlt : d < min chars.length lim := lt_of_le_of_ne (by omega) hfull
    have hne : chars.drop d ≠ [] := by
      intro he
      have := congrArg List.length he
      rw [hlen_drop] at this
      simp at this
      omega
    have hspec := fitSlow_spec f lim (chars.drop d) d d (by omega)
    by_cases hmle : measureColumns f chars ≤ lim
    · have h1 := hspec.1 (by omega)
      rw [hcalc, h1]
      refine ⟨?_, fun _ => ?_, fun hgt => ?_, hconcrete⟩
      · simp only []
        omega
      · simp only []
        omega
      · omega
    · have h2 := hspec.2 hne (by omega)
      rw [hcalc]
      refine ⟨?_, fun hle => ?_, fun _ => ?_, hconcrete⟩
      · omega
      · omega
      · omega

/-- C3 witness: the text "a中" (one ASCII char followed by a full-width
glyph) with budget 2: the glyph does not fit, so one character is consumed
and the reported column count equals the whole budget. -/
theorem textBuffer_c3_fitTextIntoColumns_witness :
    (0 : Int) ≤ 2 ∧
    (((FitTextIntoColumns (fun g => decide (g = [0x4E2D])) [97, 0x4E2D] 2).2 =
        min (measureColumns (fun g => decide (g = [0x4E2D])) [97, 0x4E2D]) (2 : Int).toNat) ∧
     (measureColumns (fun g => decide (g = [0x4E2D])) [97, 0x4E2D] ≤ (2 : Int).toNat →
        (FitTextIntoColumns (fun g => decide (g = [0x4E2D])) [97, 0x4E2D] 2).1 =
          ([97, 0x4E2D] : List Nat).length) ∧
     ((2 : Int).toNat < measureColumns (fun g => decide (g = [0x4E2D])) [97, 0x4E2D] →
        (FitTextIntoColumns (fun g => decide (g = [0x4E2D])) [97, 0x4E2D] 2).1 <
          ([97, 0x4E2D] : List Nat).length) ∧
     FitTextIntoColumns (fun g => decide (g = [0x4E2D])) [97, 98] 1 = (1, 1)) :=
  ⟨by decide, textBuffer_c3_fitTextIntoColumns (fun g => decide (g = [0x4E2D]))
    [97, 0x4E2D] 2 (by decide)⟩

/-!
Buffer state model for the cursor, ring-rotation, hyperlink and mark
operations (textBuffer.cpp lines 381-401, 717-877, 1519-1563, 2754-2765,
2800-2960).  The ROW storage primitive is an external collaborator; rows
are modelled from the spec's row contract as a list of cells plus flags.
-/

/-- A buffer coordinate (til::point). -/
structure Point where
  x : Int
  y : Int
deriving DecidableEq, Repr

/-- A scroll mark.  Modelled from the spec: marks carry a start, an end, an
optional commandEnd, an optional outputEnd, and a category; the `end` field
of the source is spelled `end_` because `end` is reserved in Lean. -/
structure ScrollMark where
  start : Point
  end_ : Point
  commandEnd : Option Point
  outputEnd : Option Point
  category : Nat
deriving DecidableEq, Repr

/-- Per-row line rendition (LineRendition enum); only SingleWidth matters
to the claims, the others halve the effective width. -/
inductive LineRendition where
  | singleWidth
  | doubleWidth
  | doubleHeightTop
  | doubleHeightBottom
deriving DecidableEq, Repr

/-- Modelled from the spec: the row collaborator contract.  One cell holds
one character code (32 = whitespace; a wide glyph stores its code in the
leading cell and 0 in the trailing cell); a row also carries an attribute
run per column, the forced-wrap and double-byte-padded flags, a line
rendition and the set of hyperlink ids its cells reference. -/
structure Row where
  cells : List Nat
  attrs : List Nat
  wrapForced : Bool
  doubleBytePadded : Bool
  lineRendition : LineRendition
  hyperlinks : List Nat
deriving DecidableEq, Repr

/-- Modelled from the spec: ROW::Reset fills the row with whitespace and
the given attributes and clears all flags and hyperlink references. -/
def Row.Reset (r : Row) (fill : Nat) : Row :=
  { cells := List.replicate r.cells.length 32
    attrs := List.replicate r.attrs.length fill
    wrapForced := false
    doubleBytePadded := false
    lineRendition := .singleWidth
    hyperlinks := [] }

/-- Modelled from the spec: ROW::ReplaceCharacters writes a glyph of the
given column width at the given column; a two-column glyph stores its code
in the leading cell and 0 in the trailing cell. -/
def Row.ReplaceCharacters (r : Row) (col width ch : Nat) : Row :=
  if width = 2 then { r with cells := (r.cells.set col ch).set (col + 1) 0 }
  else { r with cells := r.cells.set col ch }

/-- Modelled from the spec: ROW::SetAttrToEnd replaces the attribute run
from the given column to the end of the row. -/
def Row.SetAttrToEnd (r : Row) (col a : Nat) : Row :=
  { r with attrs := r.attrs.take col ++ List.replicate (r.attrs.length - col) a }

/-- The empty fallback row used for out-of-range physical indices (the
source would take a fail-fast exception instead; well-formed states never
reach it). -/
def defaultRow : Row :=
  { cells := [], attrs := [], wrapForced := false, doubleBytePadded := false
    lineRendition := .singleWidth, hyperlinks := [] }

/-- The buffer state: the physical row slots (slot 0 is the scratch row,
slots 1..height the ring), the ring offset, the cursor, the hyperlink maps
(association lists standing for std maps), the scroll marks, the renderer
flush trace (arguments of the TriggerFlush calls made so far, in order),
the active-buffer flag and the mutation counter. -/
structure BufferState where
  width : Nat
  height : Nat
  firstRow : Nat
  rows : List Row
  cursorX : Int
  cursorY : Int
  lastMutationId : Nat
  isActiveBuffer : Bool
  hyperlinkMap : List (Nat × Nat)
  hyperlinkCustomIdMap : List (Nat × Nat)
  marks : List ScrollMark
  renderTrace : List Bool
deriving DecidableEq, Repr

/-- The physical slot of logical row y, reusing the verified _getRow slot
arithmetic (slot 0 is the scratch row). -/
def BufferState.slotOf (s : BufferState) (y : Int) : Nat :=
  (getRowSlot (s.firstRow : Int) (s.height : Int) y).toNat

/-- Mirrors TextBuffer::GetRowByOffset: a const row lookup. -/
def BufferState.getRowByOffset (s : BufferState) (y : Int) : Row :=
  s.rows.getD (s.slotOf y) defaultRow

/-- Mirrors a call of TextBuffer::GetMutableRowByOffset(y) followed by a
mutation of the returned row reference: the mutation counter is bumped and
the row in the addressed slot is replaced. -/
def BufferState.modifyRowByOffset (s : BufferState) (y : Int) (f : Row → Row) : BufferState :=
  { s with
    lastMutationId := s.lastMutationId + 1
    rows := s.rows.set (s.slotOf y) (f (s.rows.getD (s.slotOf y) defaultRow)) }

/-- Mirrors TextBuffer::GetLineWidth (lines 1113-1118): the effective width
is the buffer width, halved (shift right) for non-single-width rows. -/
def BufferState.getLineWidth (s : BufferState) (y : Int) : Int :=
  if (s.getRowByOffset y).lineRendition ≠ .singleWidth then ((s.width >>> 1 : Nat) : Int)
  else (s.width : Int)

/-- Mirrors the per-mark shift in TextBuffer::ScrollMarks (lines 2869-2882):
delta is added to start.y, and to commandEnd.y / outputEnd.y when present. -/
def shiftMarkY (delta : Int) (m : ScrollMark) : ScrollMark :=
  let m := { m with start := { m.start with y := m.start.y + delta } }
  let m :=
    match m.commandEnd with
    | some p => { m with commandEnd := some { p with y := p.y + delta } }
    | none => m
  match m.outputEnd with
  | some p => { m with outputEnd := some { p with y := p.y + delta } }
  | none => m

/-- Mirrors TextBuffer::_trimMarksOutsideBuffer (lines 2909-2915): erase
every mark whose start.y lies outside [0, height). -/
def BufferState.trimMarksOutsideBuffer (s : BufferState) : BufferState :=
  { s with marks := s.marks.filter (fun m =>
      !(decide (m.start.y < 0) || decide (m.start.y ≥ (s.height : Int)))) }

/-- Mirrors TextBuffer::ScrollMarks (lines 2867-2884): shift every mark by
delta, then trim the marks that fell outside the buffer. -/
def BufferState.ScrollMarks (s : BufferState) (delta : Int) : BufferState :=
  BufferState.trimMarksOutsideBuffer { s with marks := s.marks.map (shiftMarkY delta) }

/-- Mirrors TextBuffer::SetCurrentPromptEnd (lines 2933-2941): no-op on an
empty marks list, otherwise set the end of the last mark. -/
def BufferState.SetCurrentPromptEnd (s : BufferState) (pos : Point) : BufferState :=
  if s.marks.isEmpty then s
  else
    match s.marks.getLast? with
    | some curr => { s with marks := s.marks.dropLast ++ [{ curr with end_ := pos }] }
    | none => s

/-- Mirrors TextBuffer::SetCurrentCommandEnd (lines 2942-2950). -/
def BufferState.SetCurrentCommandEnd (s : BufferState) (pos : Point) : BufferState :=
  if s.marks.isEmpty then s
  else
    match s.marks.getLast? with
    | some curr => { s with marks := s.marks.dropLast ++ [{ curr with commandEnd := some pos }] }
    | none => s

/-- Mirrors TextBuffer::SetCurrentOutputEnd (lines 2951-2960): also updates
the category of the last mark. -/
def BufferState.SetCurrentOutputEnd (s : BufferState) (pos : Point) (category : Nat) : BufferState :=
  if s.marks.isEmpty then s
  else
    match s.marks.getLast? with
    | some curr =>
      { s with marks := s.marks.dropLast ++
          [{ curr with outputEnd := some pos, category := category }] }
    | none => s

/-- Mirrors the helper allWhitespace (lines 22-32): true iff every code
unit is the space character U+0020 (the source compares against L' '). -/
def allWhitespace (text : List Nat) : Bool := text.all (fun ch => ch == 32)

/-- Mirrors TextBuffer::SearchText (lines 2807-2837).  The ICU regular
expression engine is an external collaborator, passed as `engine`;
`lastCommittedRowOffset` stands for _estimateOffsetOfLastCommittedRow().
An all-whitespace needle, or an empty row range, is rejected before the
engine is consulted. -/
def SearchText (engine : List Nat → Bool → Int → Int → List (Point × Point))
    (lastCommittedRowOffset : Int) (needle : List Nat) (caseInsensitive : Bool)
    (rowBeg rowEnd : Int) : List (Point × Point) :=
  let rowEnd := min rowEnd (lastCommittedRowOffset + 1)
  if allWhitespace needle || decide (rowBeg ≥ rowEnd) then []
  else engine needle caseInsensitive rowBeg rowEnd

/-- The shift of a single mark, written out field by field: delta is added
to the y of start and of the optional commandEnd/outputEnd; the end, the x
coordinates and the category are untouched. -/
theorem shiftMarkY_eq (delta : Int) (m : ScrollMark) :
    shiftMarkY delta m =
      { start := { x := m.start.x, y := m.start.y + delta }
        end_ := m.end_
        commandEnd := m.commandEnd.map (fun p => { x := p.x, y := p.y + delta })
        outputEnd := m.outputEnd.map (fun p => { x := p.x, y := p.y + delta })
        category := m.category } := by
  rcases m with ⟨⟨sx, sy⟩, e, cE, oE, cat⟩
  cases cE <;> cases oE <;> simp [shiftMarkY]

/-- A minimal buffer state used for concrete instances. -/
def blankState : BufferState :=
  { width := 1, height := 5, firstRow := 0, rows := [], cursorX := 0, cursorY := 0
    lastMutationId := 0, isActiveBuffer := false, hyperlinkMap := []
    hyperlinkCustomIdMap := [], marks := [], renderTrace := [] }

/-- The two-mark list of the spec's ScrollMarks example. -/
def scrollMarksExampleState : BufferState :=
  { blankState with marks :=
      [ { start := { x := 0, y := 0 }, end_ := { x := 0, y := 0 }
          commandEnd := none, outputEnd := none, category := 0 }
      , { start := { x := 0, y := 2 }, end_ := { x := 0, y := 2 }
          commandEnd := none, outputEnd := none, category := 0 } ] }

/-- C7: ScrollMarks(delta) adds delta to the y of every mark's start and of
its commandEnd/outputEnd when present (leaving the end field, the x
coordinates and the category alone), then keeps exactly the marks whose
shifted start.y still lies in [0, height); no other buffer field changes.
In particular, for two marks starting at (0,0) and (0,2) in a height-5
buffer, ScrollMarks(-1) leaves exactly one mark, with start (0,1). -/
theorem textBuffer_c7_scrollMarks :
    (∀ (s : BufferState) (delta : Int),
      s.ScrollMarks delta =
        { s with marks := s.marks.foldr (fun m acc =>
            if 0 ≤ m.start.y + delta ∧ m.start.y + delta < (s.height : Int) then
              { start := { x := m.start.x, y := m.start.y + delta }
                end_ := m.end_
                commandEnd := m.commandEnd.map (fun p => { x := p.x, y := p.y + delta })
                outputEnd := m.outputEnd.map (fun p => { x := p.x, y := p.y + delta })
                category := m.category } :: acc
            else acc) [] }) ∧
    ((scrollMarksExampleState.ScrollMarks (-1)).marks.map (fun m => m.start) =
      [{ x := 0, y := 1 }]) := by
  constructor
  · intro s delta
    simp only [BufferState.ScrollMarks, BufferState.trimMarksOutsideBuffer]
    congr 1
    induction s.marks with
    | nil => rfl
    | cons m rest ih =>
      rw [List.map_cons, List.filter_cons, List.foldr_cons, ← ih, shiftMarkY_eq]
      by_cases hc : 0 ≤ m.start.y + delta ∧ m.start.y + delta < (s.height : Int)
      · rw [if_pos hc]
        rw [if_pos (by simp only [Bool.not_eq_true', Bool.or_eq_false_iff,
              decide_eq_false_iff_not]; constructor <;> omega)]
      · rw [if_neg hc]
        rw [if_neg (by simp only [Bool.not_eq_true', Bool.or_eq_false_iff,
              decide_eq_false_iff_not, not_and]; omega)]
  · decide

/-- C8: for every needle made only of whitespace (the source's allWhitespace
predicate: every code unit is the space character), every case-sensitivity
flag and every row range, SearchText returns no matches without consulting
the external search engine: the result is empty for every engine. -/
theorem textBuffer_c8_allWhitespaceNeedle
    (engine : List Nat → Bool → Int → Int → List (Point × Point))
    (lastCommittedRowOffset : Int) (needle : List Nat) (caseInsensitive : Bool)
    (rowBeg rowEnd : Int) (hws : allWhitespace needle = true) :
    SearchText engine lastCommittedRowOffset needle caseInsensitive rowBeg rowEnd = [] := by
  simp [SearchText, hws]

/-- C8 witness: a three-space needle against an adversarial engine that
would report a match; SearchText still returns the empty list. -/
theorem textBuffer_c8_allWhitespaceNeedle_witness :
    allWhitespace [32, 32, 32] = true ∧
    SearchText (fun _ _ _ _ => [({ x := 0, y := 0 }, { x := 1, y := 0 })]) 5
      [32, 32, 32] true 0 10 = [] :=
  ⟨by decide, textBuffer_c8_allWhitespaceNeedle
    (fun _ _ _ _ => [({ x := 0, y := 0 }, { x := 1, y := 0 })]) 5
    [32, 32, 32] true 0 10 (by decide)⟩

/-- C9: with an empty marks list, SetCurrentPromptEnd, SetCurrentCommandEnd
and SetCurrentOutputEnd return the buffer state completely unchanged. -/
theorem textBuffer_c9_setEndsOnEmptyMarks (s : BufferState) (pos : Point)
    (category : Nat) (hempty : s.marks = []) :
    s.SetCurrentPromptEnd pos = s ∧
    s.SetCurrentCommandEnd pos = s ∧
    s.SetCurrentOutputEnd pos category = s := by
  refine ⟨?_, ?_, ?_⟩ <;>
    simp [BufferState.SetCurrentPromptEnd, BufferState.SetCurrentCommandEnd,
      BufferState.SetCurrentOutputEnd, hempty]

/-- C9 witness: a concrete state with no marks is returned unchanged by all
three SetCurrent...End operations. -/
theorem textBuffer_c9_setEndsOnEmptyMarks_witness :
    blankState.marks = [] ∧
    (blankState.SetCurrentPromptEnd { x := 3, y := 1 } = blankState ∧
     blankState.SetCurrentCommandEnd { x := 3, y := 1 } = blankState ∧
     blankState.SetCurrentOutputEnd { x := 3, y := 1 } 2 = blankState) :=
  ⟨by decide, textBuffer_c9_setEndsOnEmptyMarks blankState { x := 3, y := 1 } 2 (by decide)⟩

/-- Removes the first association whose value is the given id, mirroring
the erase-then-break loop over the custom-id map in
TextBuffer::RemoveHyperlinkFromMap (lines 2757-2764); the iteration order
of the underlying hash map is unspecified, the model uses list order. -/
def eraseFirstValue (m : List (Nat × Nat)) (i : Nat) : List (Nat × Nat) :=
  match m with
  | [] => []
  | p :: rest => if p.2 = i then rest else p :: eraseFirstValue rest i

/-- Mirrors TextBuffer::RemoveHyperlinkFromMap (lines 2754-2765): erase the
id from the id-to-URI map and the first custom-id entry carrying it. -/
def BufferState.RemoveHyperlinkFromMap (s : BufferState) (i : Nat) : BufferState :=
  { s with
    hyperlinkMap := s.hyperlinkMap.filter (fun p => p.1 != i)
    hyperlinkCustomIdMap := eraseFirstValue s.hyperlinkCustomIdMap i }

/-- Mirrors TextBuffer::_PruneHyperlinks (lines 1519-1563): collect the
hyperlink ids of logical row 0; every id among them that appears in no
other row (rows 1..height-1) is removed from both maps.  The source walks
an unordered set; the model walks the deduplicated reference list. -/
def BufferState.pruneHyperlinks (s : BufferState) : BufferState :=
  let refs := (s.getRowByOffset 0).hyperlinks
  if refs.isEmpty then s
  else
    let obsolete := refs.dedup.filter (fun i =>
      (List.range' 1 (s.height - 1)).all (fun y =>
        !((s.getRowByOffset (y : Int)).hyperlinks.contains i)))
    obsolete.foldl (fun st i => st.RemoveHyperlinkFromMap i) s

/-- Modelled from the spec: the default-constructed TextAttribute used as
the default fillAttributes argument of IncrementCircularBuffer. -/
def defaultAttr : Nat := 0

/-- Mirrors TextBuffer::IncrementCircularBuffer (lines 852-877): flush the
renderer when active, prune hyperlinks, reset the old logical row 0 to the
fill attributes, then advance firstRow, wrapping to 0 at height. -/
def BufferState.IncrementCircularBuffer (s : BufferState) (fillAttributes : Nat) : BufferState :=
  let s := if s.isActiveBuffer then { s with renderTrace := s.renderTrace ++ [true] } else s
  let s := s.pruneHyperlinks
  let s := s.modifyRowByOffset 0 (fun r => r.Reset fillAttributes)
  let firstRow := s.firstRow + 1
  { s with firstRow := if firstRow ≥ s.height then 0 else firstRow }

/-- Mirrors TextBuffer::NewlineCursor (lines 827-844): column to 0, row one
down; past the last row the cursor is clamped there and the ring rotates
(the source calls IncrementCircularBuffer with the defaulted argument). -/
def BufferState.NewlineCursor (s : BufferState) : BufferState :=
  let finalRowIndex := (s.height : Int) - 1
  let s := { s with cursorX := 0, cursorY := s.cursorY + 1 }
  if s.cursorY > finalRowIndex then
    let s := { s with cursorY := finalRowIndex }
    s.IncrementCircularBuffer defaultAttr
  else s

/-- Mirrors TextBuffer::IncrementCursor (lines 800-819): move one column
right; past the effective row width, mark the row forced-wrapped and take a
newline. -/
def BufferState.IncrementCursor (s : BufferState) : BufferState :=
  let finalColumnIndex := s.getLineWidth s.cursorY - 1
  let s := { s with cursorX := s.cursorX + 1 }
  if s.cursorX > finalColumnIndex then
    let s := s.modifyRowByOffset s.cursorY (fun r => { r with wrapForced := true })
    s.NewlineCursor
  else s

/-- The double-byte attribute of a character being inserted. -/
inductive DbcsAttribute where
  | single
  | leading
  | trailing
deriving DecidableEq, Repr

/-- Mirrors TextBuffer::_PrepareForDoubleByteSequence (lines 381-401): when
the leading half of a wide glyph is about to be written while the cursor is
in the last column, the row is flagged double-byte-padded and the cursor is
advanced (possibly newlining). -/
def BufferState.PrepareForDoubleByteSequence (s : BufferState) (dbcs : DbcsAttribute) : BufferState :=
  if dbcs = .leading then
    let lineWidth := s.getLineWidth s.cursorY
    if s.cursorX = lineWidth - 1 then
      let s := s.modifyRowByOffset s.cursorY (fun r => { r with doubleBytePadded := true })
      s.IncrementCursor
    else s
  else s

/-- Mirrors TextBuffer::InsertCharacter (lines 717-748): prepare the double
byte state, write the character cells and the attribute run through one
mutable row reference, then advance the cursor. -/
def BufferState.InsertCharacter (s : BufferState) (ch : Nat) (dbcs : DbcsAttribute)
    (attr : Nat) : BufferState :=
  let s := s.PrepareForDoubleByteSequence dbcs
  let iRow := s.cursorY
  let iCol := s.cursorX
  let s := s.modifyRowByOffset iRow (fun r =>
    (match dbcs with
     | .leading => r.ReplaceCharacters iCol.toNat 2 ch
     | .trailing => r.ReplaceCharacters (iCol - 1).toNat 2 ch
     | .single => r.ReplaceCharacters iCol.toNat 1 ch).SetAttrToEnd iCol.toNat attr)
  s.IncrementCursor

theorem getD_set_self {α : Type} (l : List α) (i : Nat) (x d : α) (h : i < l.length) :
    (l.set i x).getD i d = x := by
  simp [List.getD_eq_getElem?_getD, List.getElem?_set_self, h]

theorem getD_set_ne {α : Type} (l : List α) (i j : Nat) (x d : α) (h : i ≠ j) :
    (l.set i x).getD j d = l.getD j d := by
  simp [List.getD_eq_getElem?_getD, List.getElem?_set_ne, h]

theorem slotOf_eq (s : BufferState) (y : Int) (hy0 : 0 ≤ y) (hfr : s.firstRow < s.height) :
    s.slotOf y = (s.firstRow + y.toNat) % s.height + 1 := by
  unfold BufferState.slotOf
  have hh : (0 : Int) < (s.height : Int) := by omega
  simp only [getRowSlot, cppMod]
  rw [tmodFixup_eq_emod _ _ hh]
  have hcast : ((s.firstRow : Int) + y) % (s.height : Int) =
      (((s.firstRow + y.toNat) % s.height : Nat) : Int) := by
    have hy : ((s.firstRow : Int) + y) = ((s.firstRow + y.toNat : Nat) : Int) := by
      push_cast
      omega
    rw [hy]
    push_cast
    rfl
  rw [hcast]
  omega

theorem slotOf_bounds (s : BufferState) (y : Int) (hy0 : 0 ≤ y) (hfr : s.firstRow < s.height) :
    1 ≤ s.slotOf y ∧ s.slotOf y ≤ s.height := by
  rw [slotOf_eq s y hy0 hfr]
  have : (s.firstRow + y.toNat) % s.height < s.height := Nat.mod_lt _ (by omega)
  omega

theorem slotOf_succ_ne (s : BufferState) (y : Int) (hy0 : 0 ≤ y)
    (hyh : y + 1 < (s.height : Int)) (hfr : s.firstRow < s.height) :
    s.slotOf y ≠ s.slotOf (y + 1) := by
  rw [slotOf_eq s y hy0 hfr, slotOf_eq s (y + 1) (by omega) hfr]
  have h2 : 2 ≤ s.height := by omega
  have hsucc : (y + 1).toNat = y.toNat + 1 := by omega
  rw [hsucc]
  set a := s.firstRow + y.toNat with ha
  have hrw : s.firstRow + (y.toNat + 1) = a + 1 := by omega
  rw [hrw]
  intro hcontra
  have hmod : a % s.height = (a + 1) % s.height := by omega
  have hstep : (a + 1) % s.height = (a % s.height + 1) % s.height := by
    conv_lhs => rw [Nat.add_mod]
    rw [Nat.mod_eq_of_lt (show 1 < s.height by omega)]
  rcases Nat.lt_or_ge (a % s.height + 1) s.height with hlt | hge
  · rw [Nat.mod_eq_of_lt hlt] at hstep
    omega
  · have hup := Nat.mod_lt a (show 0 < s.height by omega)
    have hm1 : a % s.height = s.height - 1 := by omega
    have hz : (a % s.height + 1) % s.height = 0 := by
      rw [hm1]
      have hsh : s.height - 1 + 1 = s.height := by omega
      rw [hsh, Nat.mod_self]
    omega

theorem getLineWidth_single (s : BufferState) (y : Int)
    (h : (s.getRowByOffset y).lineRendition = .singleWidth) :
    s.getLineWidth y = (s.width : Int) := by
  simp [BufferState.getLineWidth, h]

theorem modify_getRow_self (s : BufferState) (y : Int) (f : Row → Row)
    (hlt : s.slotOf y < s.rows.length) :
    (s.modifyRowByOffset y f).getRowByOffset y = f (s.getRowByOffset y) := by
  simp only [BufferState.modifyRowByOffset, BufferState.getRowByOffset, BufferState.slotOf]
  exact getD_set_self _ _ _ _ hlt

theorem modify_getRow_ne (s : BufferState) (y y' : Int) (f : Row → Row)
    (hne : s.slotOf y ≠ s.slotOf y') :
    (s.modifyRowByOffset y f).getRowByOffset y' = s.getRowByOffset y' := by
  simp only [BufferState.modifyRowByOffset, BufferState.getRowByOffset, BufferState.slotOf]
  exact getD_set_ne _ _ _ _ _ hne

theorem newlineCursor_noScroll (t : BufferState)
    (hy1 : t.cursorY + 1 ≤ (t.height : Int) - 1) :
    t.NewlineCursor = { t with cursorX := 0, cursorY := t.cursorY + 1 } := by
  unfold BufferState.NewlineCursor
  simp only []
  rw [if_neg (by omega)]

theorem incrementCursor_at_lastCol (t : BufferState)
    (hrend : (t.getRowByOffset t.cursorY).lineRendition = .singleWidth)
    (hx : t.cursorX = (t.width : Int) - 1)
    (hy1 : t.cursorY + 1 ≤ (t.height : Int) - 1) :
    t.IncrementCursor =
      { t.modifyRowByOffset t.cursorY (fun r => { r with wrapForced := true }) with
        cursorX := 0, cursorY := t.cursorY + 1 } := by
  unfold BufferState.IncrementCursor
  simp only []
  rw [getLineWidth_single t t.cursorY hrend]
  rw [if_pos (by omega)]
  rw [newlineCursor_noScroll _ (by simp only [BufferState.modifyRowByOffset]; omega)]
  rfl

theorem incrementCursor_noWrap (t : BufferState)
    (hrend : (t.getRowByOffset t.cursorY).lineRendition = .singleWidth)
    (hx : t.cursorX + 1 ≤ (t.width : Int) - 1) :
    t.IncrementCursor = { t with cursorX := t.cursorX + 1 } := by
  unfold BufferState.IncrementCursor
  simp only []
  rw [getLineWidth_single t t.cursorY hrend]
  rw [if_neg (by omega)]

theorem modify_modify_same (s : BufferState) (y : Int) (f g : Row → Row)
    (hlt : s.slotOf y < s.rows.length) :
    (s.modifyRowByOffset y f).modifyRowByOffset y g =
      { s with
        lastMutationId := s.lastMutationId + 2
        rows := s.rows.set (s.slotOf y) (g (f (s.rows.getD (s.slotOf y) defaultRow))) } := by
  simp only [BufferState.modifyRowByOffset, BufferState.slotOf] at hlt ⊢
  rw [getD_set_self _ _ _ _ hlt, List.set_set]

theorem prepare_leading_lastCol (s : BufferState)
    (hlt : s.slotOf s.cursorY < s.rows.length)
    (hrend : (s.getRowByOffset s.cursorY).lineRendition = .singleWidth)
    (hx : s.cursorX = (s.width : Int) - 1)
    (hy1 : s.cursorY + 1 ≤ (s.height : Int) - 1) :
    s.PrepareForDoubleByteSequence .leading =
      { s with
        lastMutationId := s.lastMutationId + 2
        rows := s.rows.set (s.slotOf s.cursorY)
          { s.getRowByOffset s.cursorY with doubleBytePadded := true, wrapForced := true }
        cursorX := 0
        cursorY := s.cursorY + 1 } := by
  unfold BufferState.PrepareForDoubleByteSequence
  rw [if_pos rfl]
  simp only []
  rw [getLineWidth_single s s.cursorY hrend]
  rw [if_pos hx]
  rw [incrementCursor_at_lastCol
      (s.modifyRowByOffset s.cursorY (fun r => { r with doubleBytePadded := true }))
      (by
        show ((s.modifyRowByOffset s.cursorY
            (fun r => { r with doubleBytePadded := true })).getRowByOffset
              s.cursorY).lineRendition = .singleWidth
        rw [modify_getRow_self s s.cursorY _ hlt]
        exact hrend)
      (by exact hx) (by exact hy1)]
  show ({ (s.modifyRowByOffset s.cursorY
      (fun r => { r with doubleBytePadded := true })).modifyRowByOffset s.cursorY
      (fun r => { r with wrapForced := true }) with
      cursorX := 0, cursorY := s.cursorY + 1 } : BufferState) = _
  rw [modify_modify_same s s.cursorY _ _ hlt]
  rfl

theorem writeRow_preserves_lineRendition (r : Row) (c w ch a : Nat) :
    ((r.ReplaceCharacters c w ch).SetAttrToEnd c a).lineRendition = r.lineRendition := by
  simp only [Row.ReplaceCharacters, Row.SetAttrToEnd]
  split <;> rfl

theorem writeRow_cells (r : Row) (ch a : Nat) :
    ((r.ReplaceCharacters 0 2 ch).SetAttrToEnd 0 a).cells = (r.cells.set 0 ch).set 1 0 := by
  simp only [Row.ReplaceCharacters, Row.SetAttrToEnd]
  rfl

/-- C4 (amended): inserting the leading cell of a two-column glyph while
the cursor sits in the last column of its (single-width) row sets that
row's double-byte-padded flag, leaves the row's cells - including the last
column's existing content, which serves as the padding - unchanged, and
writes the glyph at column 0 of the next row, where the cursor has
advanced.  The un-amended claim also demanded that the last column be
overwritten with a space; the counterexample shows the source leaves the
cell's previous content in place. -/
theorem textBuffer_c4_wideGlyphAtLastColumn (s : BufferState) (ch attr : Nat)
    (hrows : s.rows.length = s.height + 1)
    (hfr : s.firstRow < s.height)
    (hy0 : 0 ≤ s.cursorY)
    (hy1 : s.cursorY + 1 < (s.height : Int))
    (hw : 2 ≤ s.width)
    (hrend : (s.getRowByOffset s.cursorY).lineRendition = .singleWidth)
    (hrend2 : (s.getRowByOffset (s.cursorY + 1)).lineRendition = .singleWidth)
    (hlen2 : 2 ≤ (s.getRowByOffset (s.cursorY + 1)).cells.length)
    (hx : s.cursorX = (s.width : Int) - 1) :
    ((s.InsertCharacter ch .leading attr).getRowByOffset s.cursorY).doubleBytePadded = true ∧
    ((s.InsertCharacter ch .leading attr).getRowByOffset s.cursorY).cells =
      (s.getRowByOffset s.cursorY).cells ∧
    ((s.InsertCharacter ch .leading attr).getRowByOffset (s.cursorY + 1)).cells.getD 0 0 = ch ∧
    (s.InsertCharacter ch .leading attr).cursorX = 1 ∧
    (s.InsertCharacter ch .leading attr).cursorY = s.cursorY + 1 := by
  have hltY : s.slotOf s.cursorY < s.rows.length := by
    have := slotOf_bounds s s.cursorY hy0 hfr
    omega
  have hltY1 : s.slotOf (s.cursorY + 1) < s.rows.length := by
    have := slotOf_bounds s (s.cursorY + 1) (by omega) hfr
    omega
  have hne : s.slotOf s.cursorY ≠ s.slotOf (s.cursorY + 1) :=
    slotOf_succ_ne s s.cursorY hy0 hy1 hfr
  have hprep := prepare_leading_lastCol s hltY hrend hx (by omega)
  have hins : s.InsertCharacter ch .leading attr =
      ((s.PrepareForDoubleByteSequence .leading).modifyRowByOffset
        (s.PrepareForDoubleByteSequence .leading).cursorY
        (fun r => (r.ReplaceCharacters
            (s.PrepareForDoubleByteSequence .leading).cursorX.toNat 2 ch).SetAttrToEnd
            (s.PrepareForDoubleByteSequence .leading).cursorX.toNat attr)).IncrementCursor := rfl
  rw [hins, hprep]
  simp only []
  simp only [Int.toNat_zero]
  set S1 : BufferState :=
    { width := s.width, height := s.height, firstRow := s.firstRow,
      rows := s.rows.set (s.slotOf s.cursorY)
        { cells := (s.getRowByOffset s.cursorY).cells
          attrs := (s.getRowByOffset s.cursorY).attrs
          wrapForced := true, doubleBytePadded := true
          lineRendition := (s.getRowByOffset s.cursorY).lineRendition
          hyperlinks := (s.getRowByOffset s.cursorY).hyperlinks },
      cursorX := 0, cursorY := s.cursorY + 1, lastMutationId := s.lastMutationId + 2,
      isActiveBuffer := s.isActiveBuffer, hyperlinkMap := s.hyperlinkMap,
      hyperlinkCustomIdMap := s.hyperlinkCustomIdMap, marks := s.marks,
      renderTrace := s.renderTrace } with hS1
  have hlt1' : S1.slotOf (s.cursorY + 1) < S1.rows.length := by
    show s.slotOf (s.cursorY + 1) < (s.rows.set (s.slotOf s.cursorY) _).length
    rw [List.length_set]
    exact hltY1
  have hS1row1 : S1.getRowByOffset (s.cursorY + 1) = s.getRowByOffset (s.cursorY + 1) := by
    show (s.rows.set (s.slotOf s.cursorY) _).getD (s.slotOf (s.cursorY + 1)) defaultRow =
      s.rows.getD (s.slotOf (s.cursorY + 1)) defaultRow
    exact getD_set_ne _ _ _ _ _ hne
  have hstep1 : (S1.modifyRowByOffset (s.cursorY + 1)
        (fun r => (r.ReplaceCharacters 0 2 ch).SetAttrToEnd 0 attr)).IncrementCursor =
      { S1.modifyRowByOffset (s.cursorY + 1)
          (fun r => (r.ReplaceCharacters 0 2 ch).SetAttrToEnd 0 attr) with cursorX := 1 } := by
    have hra := incrementCursor_noWrap
      (S1.modifyRowByOffset (s.cursorY + 1)
        (fun r => (r.ReplaceCharacters 0 2 ch).SetAttrToEnd 0 attr))
      (by
        show ((S1.modifyRowByOffset (s.cursorY + 1)
            (fun r => (r.ReplaceCharacters 0 2 ch).SetAttrToEnd 0 attr)).getRowByOffset
              (s.cursorY + 1)).lineRendition = .singleWidth
        rw [modify_getRow_self S1 (s.cursorY + 1) _ hlt1']
        rw [writeRow_preserves_lineRendition, hS1row1]
        exact hrend2)
      (by
        show (0 : Int) + 1 ≤ (s.width : Int) - 1
        omega)
    rw [hra]
    rfl
  rw [hstep1]
  refine ⟨?_, ?_, ?_, rfl, rfl⟩
  · show ((S1.modifyRowByOffset (s.cursorY + 1)
        (fun r => (r.ReplaceCharacters 0 2 ch).SetAttrToEnd 0 attr)).getRowByOffset
          s.cursorY).doubleBytePadded = true
    rw [modify_getRow_ne S1 (s.cursorY + 1) s.cursorY _ (by exact hne.symm)]
    show ((s.rows.set (s.slotOf s.cursorY)
      { cells := (s.getRowByOffset s.cursorY).cells
        attrs := (s.getRowByOffset s.cursorY).attrs
        wrapForced := true, doubleBytePadded := true
        lineRendition := (s.getRowByOffset s.cursorY).lineRendition
        hyperlinks := (s.getRowByOffset s.cursorY).hyperlinks }).getD
          (s.slotOf s.cursorY) defaultRow).doubleBytePadded = true
    rw [getD_set_self _ _ _ _ hltY]
  · show ((S1.modifyRowByOffset (s.cursorY + 1)
        (fun r => (r.ReplaceCharacters 0 2 ch).SetAttrToEnd 0 attr)).getRowByOffset
          s.cursorY).cells = (s.getRowByOffset s.cursorY).cells
    rw [modify_getRow_ne S1 (s.cursorY + 1) s.cursorY _ (by exact hne.symm)]
    show ((s.rows.set (s.slotOf s.cursorY)
      { cells := (s.getRowByOffset s.cursorY).cells
        attrs := (s.getRowByOffset s.cursorY).attrs
        wrapForced := true, doubleBytePadded := true
        lineRendition := (s.getRowByOffset s.cursorY).lineRendition
        hyperlinks := (s.getRowByOffset s.cursorY).hyperlinks }).getD
          (s.slotOf s.cursorY) defaultRow).cells = (s.getRowByOffset s.cursorY).cells
    rw [getD_set_self _ _ _ _ hltY]
  · show ((S1.modifyRowByOffset (s.cursorY + 1)
        (fun r => (r.ReplaceCharacters 0 2 ch).SetAttrToEnd 0 attr)).getRowByOffset
          (s.cursorY + 1)).cells.getD 0 0 = ch
    rw [modify_getRow_self S1 (s.cursorY + 1) _ hlt1']
    rw [writeRow_cells, hS1row1]
    rw [getD_set_ne _ 1 0 _ _ (by omega)]
    rw [getD_set_self _ _ _ _ (by omega)]

/-- A row holding "abcA" in a width-4 buffer. -/
def c4Row : Row :=
  { cells := [97, 98, 99, 65], attrs := [0, 0, 0, 0], wrapForced := false
    doubleBytePadded := false, lineRendition := .singleWidth, hyperlinks := [] }

/-- A blank width-4 row. -/
def blank4 : Row :=
  { cells := [32, 32, 32, 32], attrs := [0, 0, 0, 0], wrapForced := false
    doubleBytePadded := false, lineRendition := .singleWidth, hyperlinks := [] }

/-- A 4x3 buffer whose first row reads "abcA" with the cursor on the last
column (over the "A"). -/
def c4State : BufferState :=
  { width := 4, height := 3, firstRow := 0, rows := [blank4, c4Row, blank4, blank4]
    cursorX := 3, cursorY := 0, lastMutationId := 0, isActiveBuffer := false
    hyperlinkMap := [], hyperlinkCustomIdMap := [], marks := [], renderTrace := [] }

/-- C4 counterexample: in c4State the cursor sits in the last column of a
single-width row whose last cell holds "A"; inserting the leading cell of
the wide glyph U+4E2D sets the double-byte-padded flag and moves the glyph
to the next row, but the last column still holds "A" - it is not padded
with a space as the claim states. -/
theorem textBuffer_c4_counterexample :
    c4State.cursorX = (c4State.width : Int) - 1 ∧
    (c4State.getRowByOffset c4State.cursorY).lineRendition = .singleWidth ∧
    ((c4State.InsertCharacter 0x4E2D .leading 0).getRowByOffset 0).doubleBytePadded = true ∧
    ((c4State.InsertCharacter 0x4E2D .leading 0).getRowByOffset 1).cells.getD 0 0 = 0x4E2D ∧
    ¬(((c4State.InsertCharacter 0x4E2D .leading 0).getRowByOffset 0).cells.getD 3 0 = 32) := by
  decide

/-- C4 witness: the amended theorem applied to c4State and the glyph
U+4E2D. -/
theorem textBuffer_c4_wideGlyphAtLastColumn_witness :
    (c4State.rows.length = c4State.height + 1 ∧
     c4State.firstRow < c4State.height ∧
     0 ≤ c4State.cursorY ∧
     c4State.cursorY + 1 < (c4State.height : Int) ∧
     2 ≤ c4State.width ∧
     (c4State.getRowByOffset c4State.cursorY).lineRendition = .singleWidth ∧
     (c4State.getRowByOffset (c4State.cursorY + 1)).lineRendition = .singleWidth ∧
     2 ≤ (c4State.getRowByOffset (c4State.cursorY + 1)).cells.length ∧
     c4State.cursorX = (c4State.width : Int) - 1) ∧
    (((c4State.InsertCharacter 0x4E2D .leading 7).getRowByOffset c4State.cursorY).doubleBytePadded = true ∧
     ((c4State.InsertCharacter 0x4E2D .leading 7).getRowByOffset c4State.cursorY).cells =
       (c4State.getRowByOffset c4State.cursorY).cells ∧
     ((c4State.InsertCharacter 0x4E2D .leading 7).getRowByOffset (c4State.cursorY + 1)).cells.getD 0 0 = 0x4E2D ∧
     (c4State.InsertCharacter 0x4E2D .leading 7).cursorX = 1 ∧
     (c4State.InsertCharacter 0x4E2D .leading 7).cursorY = c4State.cursorY + 1) :=
  ⟨⟨by decide, by decide, by decide, by decide, by decide, by decide, by decide,
    by decide, by decide⟩,
    textBuffer_c4_wideGlyphAtLastColumn c4State 0x4E2D 7 (by decide) (by decide)
      (by decide) (by decide) (by decide) (by decide) (by decide) (by decide) (by decide)⟩

/-- The multiplicity of id `i` among the values of an association list
(how many custom-id entries map to `i`). -/
def countV (m : List (Nat × Nat)) (i : Nat) : Nat := m.countP (fun p => p.2 == i)

/-- An id of multiplicity zero has no entry with that value. -/
theorem countV_eq_zero_not_mem (m : List (Nat × Nat)) (i : Nat)
    (h : countV m i = 0) : ∀ k, (k, i) ∉ m := by
  intro k hk
  have := List.countP_eq_zero.mp h (k, i) hk
  simp at this

/-- Erasing the first entry whose value is `i` lowers the multiplicity of
`i` by one. -/
theorem eraseFirstValue_countV_self (m : List (Nat × Nat)) (i : Nat) :
    countV (eraseFirstValue m i) i = countV m i - 1 := by
  induction m with
  | nil => rfl
  | cons p rest ih =>
    rw [eraseFirstValue]
    by_cases hp : p.2 = i
    · rw [if_pos hp]
      simp [countV, List.countP_cons, hp]
    · rw [if_neg hp]
      have hb : (p.2 == i) = false := by simp [hp]
      simp only [countV, List.countP_cons, hb] at ih ⊢
      simp only [Bool.false_eq_true, if_false]
      omega

/-- Erasing the first entry whose value is `j` leaves the multiplicity of
any other id unchanged. -/
theorem eraseFirstValue_countV_other (m : List (Nat × Nat)) (i j : Nat) (hij : j ≠ i) :
    countV (eraseFirstValue m j) i = countV m i := by
  induction m with
  | nil => rfl
  | cons p rest ih =>
    rw [eraseFirstValue]
    by_cases hp : p.2 = j
    · rw [if_pos hp]
      have hb : (p.2 == i) = false := by simp [hp, hij]
      simp [countV, List.countP_cons, hb]
    · rw [if_neg hp]
      simp only [countV, List.countP_cons] at ih ⊢
      omega

/-- Folding the first-match erase over a duplicate-free id list lowers the
multiplicity of exactly the listed ids by one each. -/
theorem foldl_erase_countV (L : List Nat) (m : List (Nat × Nat)) (i : Nat)
    (hnodup : L.Nodup) :
    countV (L.foldl eraseFirstValue m) i =
      if i ∈ L then countV m i - 1 else countV m i := by
  induction L generalizing m with
  | nil => simp
  | cons j rest ih =>
    have hrest : rest.Nodup := hnodup.of_cons
    have hjrest : j ∉ rest := by
      intro hj
      exact (List.nodup_cons.mp hnodup).1 hj
    rw [List.foldl_cons]
    by_cases hij : i = j
    · subst hij
      rw [ih _ hrest, if_neg hjrest, eraseFirstValue_countV_self]
      simp
    · rw [ih _ hrest, eraseFirstValue_countV_other m i j (fun h => hij h.symm)]
      by_cases hir : i ∈ rest
      · rw [if_pos hir, if_pos (List.mem_cons_of_mem j hir)]
      · rw [if_neg hir, if_neg (by
          intro hc
          rcases List.mem_cons.mp hc with h | h
          · exact hij h
          · exact hir h)]

/-- Folding RemoveHyperlinkFromMap over a duplicate-free id list filters
the id-to-URI map down to the unlisted ids and erases, per listed id, the
first matching custom-id entry. -/
theorem fold_remove_spec (L : List Nat) (s0 : BufferState) :
    L.foldl (fun st i => st.RemoveHyperlinkFromMap i) s0 =
      { s0 with
        hyperlinkMap := s0.hyperlinkMap.filter (fun p => !(L.contains p.1))
        hyperlinkCustomIdMap := L.foldl eraseFirstValue s0.hyperlinkCustomIdMap } := by
  induction L generalizing s0 with
  | nil =>
    simp
  | cons j rest ih =>
    rw [List.foldl_cons, ih]
    simp only [BufferState.RemoveHyperlinkFromMap, List.foldl_cons]
    rw [List.filter_filter]
    have hfeq : List.filter (fun a => !rest.contains a.1 && a.1 != j) s0.hyperlinkMap =
        List.filter (fun p => !(j :: rest).contains p.1) s0.hyperlinkMap := by
      refine List.filter_congr ?_
      intro p _
      simp only [List.contains_cons]
      cases hpj : p.1 == j <;> cases hpr : rest.contains p.1 <;>
        simp_all
    rw [hfeq]

/-- Membership in the id-to-URI map filtered by a prune list. -/
theorem mem_filter_not_contains (m : List (Nat × Nat)) (L : List Nat) (p : Nat × Nat) :
    p ∈ m.filter (fun q => !(L.contains q.1)) ↔ p ∈ m ∧ p.1 ∉ L := by
  rw [List.mem_filter]
  simp

/-- The ids _PruneHyperlinks passes to RemoveHyperlinkFromMap: the
deduplicated references of the row about to be recycled, minus every id
found in one of the surviving rows 1..height-1. -/
def pruneList (s : BufferState) : List Nat :=
  if (s.getRowByOffset 0).hyperlinks.isEmpty then []
  else (s.getRowByOffset 0).hyperlinks.dedup.filter (fun i =>
    (List.range' 1 (s.height - 1)).all (fun y =>
      !((s.getRowByOffset (y : Int)).hyperlinks.contains i)))

/-- _PruneHyperlinks in closed form: the id-to-URI map keeps exactly the
ids outside the prune list and the custom-id map loses, per pruned id, its
first matching entry. -/
theorem pruneHyperlinks_eq (s : BufferState) :
    s.pruneHyperlinks =
      { s with
        hyperlinkMap := s.hyperlinkMap.filter (fun p => !((pruneList s).contains p.1))
        hyperlinkCustomIdMap := (pruneList s).foldl eraseFirstValue s.hyperlinkCustomIdMap } := by
  unfold BufferState.pruneHyperlinks pruneList
  by_cases he : (s.getRowByOffset 0).hyperlinks.isEmpty
  · rw [if_pos he, if_pos he]
    simp
  · rw [if_neg he, if_neg he]
    exact fold_remove_spec _ s

/-- The prune list is duplicate-free (the source deduplicates the refs). -/
theorem pruneList_nodup (s : BufferState) : (pruneList s).Nodup := by
  unfold pruneList
  split
  · exact List.nodup_nil
  · exact (List.nodup_dedup _).filter _

/-- An id is pruned exactly when the recycled row references it and no
surviving row does. -/
theorem mem_pruneList (s : BufferState) (i : Nat) :
    i ∈ pruneList s ↔
      (i ∈ (s.getRowByOffset 0).hyperlinks ∧
       ∀ y : Nat, 1 ≤ y → y < s.height → i ∉ (s.getRowByOffset (y : Int)).hyperlinks) := by
  unfold pruneList
  by_cases he : (s.getRowByOffset 0).hyperlinks.isEmpty
  · rw [if_pos he]
    simp only [List.not_mem_nil, false_iff, not_and]
    intro hi
    rw [List.isEmpty_iff] at he
    rw [he] at hi
    exact absurd hi (List.not_mem_nil i)
  · rw [if_neg he]
    rw [List.mem_filter, List.mem_dedup]
    constructor
    · rintro ⟨hmem, hall⟩
      refine ⟨hmem, ?_⟩
      intro y hy1 hyh hymem
      rw [List.all_eq_true] at hall
      have hy : y ∈ List.range' 1 (s.height - 1) := by
        rw [List.mem_range'_1]
        omega
      have := hall y hy
      simp at this
      exact this hymem
    · rintro ⟨hmem, hall⟩
      refine ⟨hmem, ?_⟩
      rw [List.all_eq_true]
      intro y hy
      rw [List.mem_range'_1] at hy
      have := hall y hy.1 (by omega)
      simp
      exact this

/-- IncrementCircularBuffer in closed form: renderer flush recorded iff
the buffer is active, hyperlink maps pruned by the recycled row's
otherwise-unreferenced ids, that row reset to the fill attributes, the
mutation counter bumped and firstRow advanced with wraparound. -/
theorem incrementCircularBuffer_eq (t : BufferState) (fill : Nat) :
    t.IncrementCircularBuffer fill =
      { t with
        renderTrace := t.renderTrace ++ (if t.isActiveBuffer then [true] else [])
        hyperlinkMap := t.hyperlinkMap.filter (fun p => !((pruneList t).contains p.1))
        hyperlinkCustomIdMap := (pruneList t).foldl eraseFirstValue t.hyperlinkCustomIdMap
        lastMutationId := t.lastMutationId + 1
        rows := t.rows.set (t.slotOf 0) ((t.getRowByOffset 0).Reset fill)
        firstRow := if t.firstRow + 1 ≥ t.height then 0 else t.firstRow + 1 } := by
  unfold BufferState.IncrementCircularBuffer
  by_cases hact : t.isActiveBuffer
  · rw [if_pos hact, if_pos hact]
    simp only []
    rw [pruneHyperlinks_eq]
    simp only [BufferState.modifyRowByOffset, BufferState.getRowByOffset, BufferState.slotOf,
      List.append_nil]
    try rfl
  · rw [if_neg hact, if_neg hact]
    simp only []
    rw [pruneHyperlinks_eq]
    simp only [BufferState.modifyRowByOffset, BufferState.getRowByOffset, BufferState.slotOf,
      List.append_nil]
    try rfl

/-- C6 (amended): after one ring rotation, (a) an id referenced by at
least one live row keeps its id-to-URI registry entry; (b) an id
referenced only by the recycled row is erased from the id-to-URI map, but
in the custom-id map only the first matching entry is removed - the
multiplicity drops by exactly one, so the id disappears from that map
only when at most one entry carried it. -/
theorem textBuffer_c6_hyperlinkGc (s : BufferState) (fill i u : Nat) :
    (((i, u) ∈ s.hyperlinkMap ∧
      (∃ y : Nat, 1 ≤ y ∧ y < s.height ∧ i ∈ (s.getRowByOffset (y : Int)).hyperlinks)) →
      (i, u) ∈ (s.IncrementCircularBuffer fill).hyperlinkMap) ∧
    ((i ∈ (s.getRowByOffset 0).hyperlinks ∧
      (∀ y : Nat, 1 ≤ y → y < s.height → i ∉ (s.getRowByOffset (y : Int)).hyperlinks)) →
      ((∀ v : Nat, (i, v) ∉ (s.IncrementCircularBuffer fill).hyperlinkMap) ∧
       countV (s.IncrementCircularBuffer fill).hyperlinkCustomIdMap i =
         countV s.hyperlinkCustomIdMap i - 1 ∧
       (countV s.hyperlinkCustomIdMap i ≤ 1 →
         ∀ k : Nat, (k, i) ∉ (s.IncrementCircularBuffer fill).hyperlinkCustomIdMap))) := by
  rw [incrementCircularBuffer_eq]
  simp only []
  constructor
  · rintro ⟨hmem, y, hy1, hyh, hylive⟩
    rw [mem_filter_not_contains]
    refine ⟨hmem, ?_⟩
    rw [mem_pruneList]
    rintro ⟨_, hnone⟩
    exact hnone y hy1 hyh hylive
  · rintro ⟨h0, hnone⟩
    have hiL : i ∈ pruneList s := (mem_pruneList s i).mpr ⟨h0, hnone⟩
    refine ⟨?_, ?_, ?_⟩
    · intro v hv
      rw [mem_filter_not_contains] at hv
      exact hv.2 hiL
    · rw [foldl_erase_countV _ _ _ (pruneList_nodup s), if_pos hiL]
    · intro hle k
      have hc : countV ((pruneList s).foldl eraseFirstValue s.hyperlinkCustomIdMap) i = 0 := by
        rw [foldl_erase_countV _ _ _ (pruneList_nodup s), if_pos hiL]
        omega
      exact countV_eq_zero_not_mem _ _ hc k

/-- C5: NewlineCursor sets the column to 0 and advances the row by one;
from the last row it clamps the row and rotates the ring, which flushes
the renderer exactly when the buffer is active, prunes hyperlink ids
referenced only by the recycled row, resets that row to the fill
attributes and advances firstRow by one modulo the height. -/
theorem textBuffer_c5_newlineCursor (s : BufferState)
    (hrows : s.rows.length = s.height + 1)
    (hfr : s.firstRow < s.height) :
    (s.cursorY < (s.height : Int) - 1 →
      s.NewlineCursor = { s with cursorX := 0, cursorY := s.cursorY + 1 }) ∧
    (s.cursorY = (s.height : Int) - 1 →
      (s.NewlineCursor.cursorX = 0 ∧
       s.NewlineCursor.cursorY = (s.height : Int) - 1 ∧
       s.NewlineCursor.renderTrace =
         s.renderTrace ++ (if s.isActiveBuffer then [true] else []) ∧
       s.NewlineCursor.firstRow = (s.firstRow + 1) % s.height ∧
       s.NewlineCursor.rows.getD (s.slotOf 0) defaultRow =
         (s.getRowByOffset 0).Reset defaultAttr ∧
       (∀ sl : Nat, sl ≠ s.slotOf 0 →
         s.NewlineCursor.rows.getD sl defaultRow = s.rows.getD sl defaultRow) ∧
       (∀ p : Nat × Nat, p ∈ s.NewlineCursor.hyperlinkMap ↔
         p ∈ s.hyperlinkMap ∧
         ¬(p.1 ∈ (s.getRowByOffset 0).hyperlinks ∧
           ∀ y : Nat, 1 ≤ y → y < s.height →
             p.1 ∉ (s.getRowByOffset (y : Int)).hyperlinks)))) := by
  constructor
  · intro hlt
    exact newlineCursor_noScroll s (by omega)
  · intro hcy
    have hrot : s.NewlineCursor =
        ({ s with cursorX := 0, cursorY := (s.height : Int) - 1 } : BufferState).IncrementCircularBuffer
          defaultAttr := by
      unfold BufferState.NewlineCursor
      simp only []
      rw [if_pos (by omega)]
    rw [hrot, incrementCircularBuffer_eq]
    simp only []
    have hplB : pruneList { s with cursorX := 0, cursorY := (s.height : Int) - 1 } = pruneList s := rfl
    have hslot0 : s.slotOf 0 < s.rows.length := by
      have := slotOf_bounds s 0 (by omega) hfr
      omega
    refine ⟨trivial, trivial, trivial, ?_, ?_, ?_, ?_⟩
    · show (if s.firstRow + 1 ≥ s.height then 0 else s.firstRow + 1) = (s.firstRow + 1) % s.height
      by_cases hge : s.firstRow + 1 ≥ s.height
      · rw [if_pos hge]
        have heq : s.firstRow + 1 = s.height := by omega
        rw [heq, Nat.mod_self]
      · rw [if_neg hge, Nat.mod_eq_of_lt (by omega)]
    · show (s.rows.set (s.slotOf 0) ((s.getRowByOffset 0).Reset defaultAttr)).getD
          (s.slotOf 0) defaultRow = (s.getRowByOffset 0).Reset defaultAttr
      exact getD_set_self _ _ _ _ hslot0
    · intro sl hsl
      show (s.rows.set (s.slotOf 0) ((s.getRowByOffset 0).Reset defaultAttr)).getD
          sl defaultRow = s.rows.getD sl defaultRow
      exact getD_set_ne _ _ _ _ _ (fun hc => hsl hc.symm)
    · intro p
      show p ∈ s.hyperlinkMap.filter (fun q => !((pruneList s).contains q.1)) ↔ _
      rw [mem_filter_not_contains, mem_pruneList]

/-- A width-4 row whose cells reference hyperlink id 5. -/
def linkRow5 : Row :=
  { cells := [104, 105, 32, 32], attrs := [0, 0, 0, 0], wrapForced := false
    doubleBytePadded := false, lineRendition := .singleWidth, hyperlinks := [5] }

/-- A 4x2 buffer: the row the next rotation recycles (y = 0) references
hyperlink id 5, the other row does not; the registry maps id 5 to URI 77
and the custom-id map holds two entries whose value is id 5. -/
def cex6 : BufferState :=
  { width := 4, height := 2, firstRow := 0, rows := [blank4, linkRow5, blank4]
    cursorX := 0, cursorY := 0, lastMutationId := 0, isActiveBuffer := false
    hyperlinkMap := [(5, 77)], hyperlinkCustomIdMap := [(11, 5), (12, 5)]
    marks := [], renderTrace := [] }

/-- A 4x2 buffer in which a live row (y = 1) also references id 5. -/
def cex6a : BufferState :=
  { width := 4, height := 2, firstRow := 0, rows := [blank4, linkRow5, linkRow5]
    cursorX := 0, cursorY := 0, lastMutationId := 0, isActiveBuffer := false
    hyperlinkMap := [(5, 77)], hyperlinkCustomIdMap := [(11, 5)]
    marks := [], renderTrace := [] }

/-- C6 counterexample: in cex6 id 5 is referenced only by the row being
recycled, and the rotation does erase its registry entry, yet the
custom-id entry (12, 5) survives - the id is not erased from both maps. -/
theorem textBuffer_c6_counterexample :
    5 ∈ (cex6.getRowByOffset 0).hyperlinks ∧
    (∀ y ∈ List.range' 1 (cex6.height - 1),
      5 ∉ (cex6.getRowByOffset (y : Int)).hyperlinks) ∧
    (5, 77) ∉ (cex6.IncrementCircularBuffer 0).hyperlinkMap ∧
    (12, 5) ∈ (cex6.IncrementCircularBuffer 0).hyperlinkCustomIdMap := by
  decide

/-- C6 (amended): after one ring rotation, (a) an id referenced by at
least one live row keeps its id-to-URI registry entry; (b) an id
referenced only by the recycled row is erased from the id-to-URI map, but
in the custom-id map only the first matching entry is removed - the
multiplicity drops by exactly one, so the id disappears from that map
only when at most one entry carried it. -/
theorem textBuffer_c6_hyperlinkGc_witness :
    (5, 77) ∈ (cex6a.IncrementCircularBuffer 0).hyperlinkMap ∧
    (∀ v : Nat, (5, v) ∉ (cex6.IncrementCircularBuffer 0).hyperlinkMap) ∧
    countV (cex6.IncrementCircularBuffer 0).hyperlinkCustomIdMap 5 =
      countV cex6.hyperlinkCustomIdMap 5 - 1 := by
  refine ⟨?_, ?_, ?_⟩
  · exact (textBuffer_c6_hyperlinkGc cex6a 0 5 77).1
      ⟨by decide, 1, by decide, by decide, by decide⟩
  · exact ((textBuffer_c6_hyperlinkGc cex6 0 5 77).2
      ⟨by decide, by
        intro y h1 h2
        have hh : cex6.height = 2 := rfl
        have hy : y = 1 := by omega
        subst hy
        decide⟩).1
  · exact ((textBuffer_c6_hyperlinkGc cex6 0 5 77).2
      ⟨by decide, by
        intro y h1 h2
        have hh : cex6.height = 2 := rfl
        have hy : y = 1 := by omega
        subst hy
        decide⟩).2.1

/-- A 4x2 buffer with the cursor on the last row. -/
def c5State : BufferState :=
  { width := 4, height := 2, firstRow := 0, rows := [blank4, blank4, blank4]
    cursorX := 1, cursorY := 1, lastMutationId := 0, isActiveBuffer := false
    hyperlinkMap := [], hyperlinkCustomIdMap := [], marks := [], renderTrace := [] }

/-- C5 witness: the theorem applied to c5State, whose cursor sits on the
last row: the column returns to 0 and firstRow advances modulo height. -/
theorem textBuffer_c5_newlineCursor_witness :
    c5State.rows.length = c5State.height + 1 ∧
    c5State.firstRow < c5State.height ∧
    c5State.NewlineCursor.cursorX = 0 ∧
    c5State.NewlineCursor.firstRow = (c5State.firstRow + 1) % c5State.height := by
  have h := (textBuffer_c5_newlineCursor c5State (by decide) (by decide)).2 (by decide)
  exact ⟨by decide, by decide, h.1, h.2.2.2.1⟩

/-- Modelled from the spec: a row as the reflow engine consumes it - one
character code per column (32 = whitespace; a two-column glyph holds its
code in the leading cell and 0 in the trailing cell), one attribute per
column, the forced-wrap flag and the line rendition. -/
structure RfRow where
  cells : List Nat
  attrs : List Nat
  wrapForced : Bool
  lineRendition : LineRendition
deriving DecidableEq, Repr

/-- A blank width-w row carrying the given fill attribute, the content of
every row of a freshly constructed buffer and of ROW::Reset. -/
def blankRfRow (w : Int) (fill : Nat) : RfRow :=
  { cells := List.replicate w.toNat 32, attrs := List.replicate w.toNat fill
    wrapForced := false, lineRendition := .singleWidth }

/-- Modelled from the spec: ROW::MeasureRight, the right draw boundary -
one past the rightmost non-whitespace column, 0 for a blank row (the
caller GetLastNonSpaceCharacter subtracts 1 and tests for -1). -/
def RfRow.MeasureRight (r : RfRow) : Int :=
  ((r.cells.reverse.dropWhile (fun c => c == 32)).length : Int)

/-- Modelled from the spec: ROW::AdjustToGlyphStart - clamp the column into
the row and, if it lands on the trailing cell of a two-column glyph (a 0
cell), step back to the leading cell. -/
def RfRow.AdjustToGlyphStart (r : RfRow) (x : Int) : Int :=
  let x := max 0 (min x ((r.cells.length : Int) - 1))
  if r.cells.getD x.toNat 32 = 0 then x - 1 else x

/-- Modelled from the spec: the cell-copy core of ROW::CopyTextFrom.  The
source segment is copied into the destination cells from column dstX on,
stopping when the destination width dstW runs out; a two-column glyph is
never split - when only one destination column remains, that column is
filled with whitespace instead and the copy reports the destination full
without consuming the glyph.  Returns the destination cells, the
one-past-last written destination column (columnEnd) and the one-past-last
consumed source column (sourceColumnEnd). -/
def copyCells : List Nat → List Nat → Int → Int → Int → (List Nat × Int × Int)
  | [], dst, dstX, srcX, _ => (dst, dstX, srcX)
  | [c], dst, dstX, srcX, dstW =>
    if dstX ≥ dstW then (dst, dstX, srcX)
    else (dst.set dstX.toNat c, dstX + 1, srcX + 1)
  | c :: d :: rest, dst, dstX, srcX, dstW =>
    if dstX ≥ dstW then (dst, dstX, srcX)
    else if c ≠ 0 ∧ d = 0 then
      if dstX + 1 ≥ dstW then (dst.set dstX.toNat 32, dstW, srcX)
      else
        copyCells rest ((dst.set dstX.toNat c).set (dstX + 1).toNat 0)
          (dstX + 2) (srcX + 2) dstW
    else copyCells (d :: rest) (dst.set dstX.toNat c) (dstX + 1) (srcX + 1) dstW

/-- Modelled from the spec: til::small_rle::resize_trailing_extent on a
per-column attribute list - truncate to the width, or extend the final
attribute run up to it. -/
def resizeTrailing (l : List Nat) (w : Int) (fill : Nat) : List Nat :=
  if l.length ≥ w.toNat then l.take w.toNat
  else l ++ List.replicate (w.toNat - l.length) (l.getLastD fill)

/-- The old buffer as TextBuffer::Reflow reads it: the buffer size, the
logical rows in viewport order (GetRowByOffset y, a pure lookup through
the verified slot arithmetic, is row y of this list), the cursor, and the
committed-row estimate _estimateOffsetOfLastCommittedRow (a watermark the
row allocator tracks; 0 when nothing is committed). -/
structure OldBuffer where
  width : Int
  height : Int
  rows : List RfRow
  cursorX : Int
  cursorY : Int
  lastCommittedRow : Int
deriving DecidableEq, Repr

/-- Row lookup on the old buffer (GetRowByOffset, logical order). -/
def OldBuffer.getRow (b : OldBuffer) (y : Int) : RfRow :=
  b.rows.getD y.toNat (blankRfRow b.width 0)

/-- The backward search of GetLastNonSpaceCharacter: from row y downward,
the first row with a non-whitespace cell gives (MeasureRight - 1, y);
the search stops at row 0. -/
def lastNonSpaceAux (b : OldBuffer) : Nat → Int × Int
  | 0 => ((b.getRow 0).MeasureRight - 1, 0)
  | n + 1 =>
    let x := (b.getRow ((n : Int) + 1)).MeasureRight - 1
    if x < 0 then lastNonSpaceAux b n else (x, (n : Int) + 1)

/-- Mirrors TextBuffer::GetLastNonSpaceCharacter (lines 891-921) with no
viewport hint: start at min(height - 1, last committed row), back up over
blank rows, clamp the result to be non-negative. -/
def OldBuffer.GetLastNonSpaceCharacter (b : OldBuffer) : Int × Int :=
  let y0 := min (b.height - 1) b.lastCommittedRow
  let p := lastNonSpaceAux b y0.toNat
  (max p.1 0, max p.2 0)

/-- INT_MAX, the til::CoordTypeMax sentinel. -/
def CoordTypeMax : Int := 2147483647

/-- The mutable state of the reflow walk: the new buffer's ring rows
(index i holds the row GetMutableRowByOffset(newY) addresses when
newY % newHeight = i; _firstRow is 0 until the final fixup, so this is
the physical ring up to the fixed slot-0 scratchpad offset), the write
position newX/newY, the cursor cap newYLimit and the new cursor. -/
structure ReflowSt where
  rows : List RfRow
  newX : Int
  newY : Int
  newYLimit : Int
  cx : Int
  cy : Int
deriving DecidableEq, Repr

/-- The ring index GetMutableRowByOffset(newY) addresses while
_firstRow = 0 (newY is never negative during the walk). -/
def rowIdx (newH newY : Int) : Nat := (cppMod newY newH).toNat

/-- Mirrors the do-while copy loop of TextBuffer::Reflow (lines 2573-2645)
for one single-width source row: wrap on a full destination row
(SetWrapForced on the row being left), the REFLOW_RESET of revisited rows
with its break protecting the row holding the new cursor, the
CopyTextFrom/attribute replace, the cursor translation with its
newYLimit cap, and the advance to sourceColumnEnd/columnEnd while
sourceColumnEnd < oldRowLimit.  The fuel argument bounds the iteration
count (the source itself notes the loop can deadlock, see
REFLOW_JANK_CURSOR_WRAP); every run below uses visibly sufficient fuel. -/
def reflowInner (oldRow : RfRow) (ocx ocy oldY oldRowLimit newW newH : Int) (fill : Nat) :
    Nat → Int → ReflowSt → ReflowSt
  | 0, _, st => st
  | fuel + 1, oldX, st =>
    let st :=
      if st.newX ≥ newW then
        { st with
          rows := st.rows.set (rowIdx newH st.newY)
            { st.rows.getD (rowIdx newH st.newY) (blankRfRow newW fill) with wrapForced := true }
          newX := 0
          newY := st.newY + 1 }
      else st
    if st.newY ≥ newH ∧ st.newX = 0 ∧ st.newY ≥ st.newYLimit then st
    else
      let st :=
        if st.newY ≥ newH ∧ st.newX = 0 then
          { st with rows := st.rows.set (rowIdx newH st.newY) (blankRfRow newW fill) }
        else st
      let idx := rowIdx newH st.newY
      let nr := st.rows.getD idx (blankRfRow newW fill)
      let src := (oldRow.cells.take oldRowLimit.toNat).drop oldX.toNat
      let copied := copyCells src nr.cells st.newX oldX newW
      let attrs2 := resizeTrailing ((nr.attrs.take st.newX.toNat) ++ oldRow.attrs.drop oldX.toNat)
        newW fill
      let nr2 := { nr with cells := copied.1, attrs := attrs2 }
      let st2 := { st with rows := st.rows.set idx nr2 }
      let st3 :=
        if oldY = ocy ∧ ocx ≥ oldX then
          { st2 with
            cx := nr2.AdjustToGlyphStart (ocx - oldX + st.newX)
            cy := st.newY
            newYLimit := st.newY + newH }
        else st2
      let oldX2 := copied.2.2
      let st4 := { st3 with newX := copied.2.1 }
      if oldX2 < oldRowLimit then
        reflowInner oldRow ocx ocy oldY oldRowLimit newW newH fill fuel oldX2 st4
      else st4

/-- Mirrors the main copy loop of TextBuffer::Reflow (lines 2508-2651):
while oldY < oldHeight and newY < newYLimit, a non-single-width row is
newlined onto a fresh destination row, reset if revisited, copied whole
with forced wrap cleared and the cursor translated through
AdjustToGlyphStart when it sat on that row; a single-width row runs the
do-while copy with oldRowLimit = MeasureRight, raised to the column past
the cursor on the cursor's row (REFLOW_JANK_CURSOR_WRAP); a row without
forced wrap newlines afterwards.  Returns the oldY the loop stopped at
and the final state. -/
def reflowOuter (ob : OldBuffer) (ocx ocy newW newH : Int) (fill : Nat) :
    Nat → Int → ReflowSt → (Int × ReflowSt)
  | 0, oldY, st => (oldY, st)
  | rem + 1, oldY, st =>
    if st.newY < st.newYLimit then
      let oldRow := ob.getRow oldY
      if oldRow.lineRendition ≠ .singleWidth then
        let st := if st.newX ≠ 0 then { st with newX := 0, newY := st.newY + 1 } else st
        let st :=
          if st.newY ≥ newH then
            { st with rows := st.rows.set (rowIdx newH st.newY) (blankRfRow newW fill) }
          else st
        let nr :=
          { cells := (oldRow.cells.take newW.toNat) ++
              List.replicate (newW.toNat - oldRow.cells.length) 32
            attrs := resizeTrailing oldRow.attrs newW fill
            wrapForced := false
            lineRendition := oldRow.lineRendition }
        let st := { st with rows := st.rows.set (rowIdx newH st.newY) nr }
        let st :=
          if oldY = ocy then { st with cx := nr.AdjustToGlyphStart ocx, cy := st.newY }
          else st
        let st := { st with newY := st.newY + 1 }
        reflowOuter ob ocx ocy newW newH fill rem (oldY + 1) st
      else
        let oldRowLimit0 := oldRow.MeasureRight
        let oldRowLimit := if oldY = ocy then max oldRowLimit0 (ocx + 1) else oldRowLimit0
        let fuel := (oldRowLimit.toNat + newH.toNat + 4) * 2
        let st := reflowInner oldRow ocx ocy oldY oldRowLimit newW newH fill fuel 0 st
        let st :=
          if ¬ oldRow.wrapForced then { st with newX := 0, newY := st.newY + 1 } else st
        reflowOuter ob ocx ocy newW newH fill rem (oldY + 1) st
    else (oldY, st)

/-- Mirrors the trailing-attribute loop of TextBuffer::Reflow (lines
2657-2665): below the last visited source row, committed rows still
propagate their attribute runs (resized to the new width) while
destination rows remain. -/
def trailingAttrs (ob : OldBuffer) (newW newH : Int) (fill : Nat) :
    Nat → Int → ReflowSt → ReflowSt
  | 0, _, st => st
  | rem + 1, oldY, st =>
    if st.newY < newH then
      let idx := rowIdx newH st.newY
      let nr := st.rows.getD idx (blankRfRow newW fill)
      let st2 := { st with
        rows := st.rows.set idx { nr with attrs := resizeTrailing (ob.getRow oldY).attrs newW fill }
        newY := st.newY + 1 }
      trailingAttrs ob newW newH fill rem (oldY + 1) st2
    else st

/-- The outcome of a reflow: the new ring rows, the computed _firstRow and
the cursor position stored into the new buffer's cursor (modelled from the
spec: Cursor::SetPosition stores the given position; the source asserts
0 ≤ x < newWidth and 0 ≤ y < newHeight immediately before the call). -/
structure ReflowResult where
  rows : List RfRow
  firstRow : Int
  cursorX : Int
  cursorY : Int
deriving DecidableEq, Repr

/-- Mirrors TextBuffer::Reflow (lines 2475-2690) with no viewport hint and
no position markers: clamp the old cursor into the old buffer, compute
oldHeight from the last non-space row and the cursor row, run the main
copy walk from a freshly constructed (all blank, fill-attributed) new
buffer, run the trailing-attribute loop up to the committed watermark,
and - only when newY overran strictly past newHeight - fix up _firstRow
as newY % newHeight and un-map the cursor row through
(y - firstRow + newHeight) % newHeight. -/
def Reflow (ob : OldBuffer) (newW newH : Int) (fill : Nat) : ReflowResult :=
  let ocx := max 0 (min ob.cursorX (ob.width - 1))
  let ocy := max 0 (min ob.cursorY (ob.height - 1))
  let lastRowWithText := ob.GetLastNonSpaceCharacter.2
  let oldHeight := max lastRowWithText ocy + 1
  let st0 : ReflowSt :=
    { rows := List.replicate newH.toNat (blankRfRow newW fill)
      newX := 0, newY := 0, newYLimit := CoordTypeMax, cx := 0, cy := 0 }
  let r1 := reflowOuter ob ocx ocy newW newH fill oldHeight.toNat 0 st0
  let initializedRowsEnd := ob.lastCommittedRow + 1
  let st2 := trailingAttrs ob newW newH fill (initializedRowsEnd - r1.1).toNat r1.1 r1.2
  if st2.newY > newH then
    let firstRow := cppMod st2.newY newH
    { rows := st2.rows, firstRow := firstRow, cursorX := st2.cx
      cursorY := cppMod (st2.cy - firstRow + newH) newH }
  else
    { rows := st2.rows, firstRow := 0, cursorX := st2.cx, cursorY := st2.cy }

/-- A full-width two-character row with forced wrap. -/
def wrapRow (a b : Nat) : RfRow :=
  { cells := [a, b], attrs := [0, 0], wrapForced := true, lineRendition := .singleWidth }

/-- A 2x3 buffer holding one wrapped logical line "abcdef" with the cursor
at the start of its last row and all rows committed. -/
def cexOld : OldBuffer :=
  { width := 2, height := 3, rows := [wrapRow 97 98, wrapRow 99 100, wrapRow 101 102]
    cursorX := 0, cursorY := 2, lastCommittedRow := 2 }

/-- C2 is refuted by the code: reflowing cexOld (2 columns x 3 rows, every
row wrap-forced, cursor on the last row) into a 2-column, 2-row buffer
stores a new cursor with y = 2 = newHeight, outside [0, newHeight).  The
walk ends with newY = 2, so the final remap - guarded by
newY > newHeight - does not fire, and the cursor row computed inside the
walk is never un-mapped, violating the source's own
assert(newCursorPos.y < newHeight). -/
theorem textBuffer_c2_reflowCursorOutOfRange :
    (Reflow cexOld 2 2 0).cursorY = 2 ∧
    ¬(0 ≤ (Reflow cexOld 2 2 0).cursorY ∧ (Reflow cexOld 2 2 0).cursorY < 2) := by
  decide
